import Mathlib

/-!
Verification of the Schema Resolution and Entity Normalization Engine of
the bio-data-harmoniser repository, as a shallow embedding in Lean 4.

The embedding follows the Python source:
  * core/logging.py            — LoggingSession, Decision log
  * core/schemas/base.py       — align_dataframe_to_schema, get_column_name,
                                 _sort_columns_based_on_dependencies, schema()
  * core/normalisation/entity.py — EntityNormaliser.normalise, _classify,
                                 _get_curie_prefix_if_needed, _finalise_output
  * core/utils.py              — to_snake_case, Mapping

Modelling conventions:
  * pandas DataFrames are ordered association lists of named columns of
    `Value`s (positional row indexing; the RangeIndex case of the source).
  * floats are modelled as rationals (`ℚ`).
  * LLM calls are oracles: functions supplied as parameters, one per call
    site, taking the semantically relevant inputs of the prompt and
    returning the (already-unwrapped) text answer.  `wrangle_llm_response`
    is therefore the identity in the model.
  * Python set iteration order is unspecified; it is modelled as an
    explicit enumeration parameter (`setOrder` / `setEnum`), constrained
    where a theorem needs it to enumerate the set.
  * exceptions are modelled with `Except`; `tenacity` retry is an explicit
    bounded loop (wait times are not modelled, only attempt counts).
-/

/-! ## Generic helpers: Python dict / set / sorted semantics -/

/-- Lookup in a Python dict represented as an insertion list: the value of
the LAST binding of the key wins (later insertions overwrite). -/
def dictGet {α : Type} (l : List (String × α)) (k : String) : Option α :=
  (l.reverse.find? (fun p => p.1 == k)).map (·.2)

/-- Python dict insertion: overwrite in place if the key exists, else append. -/
def dictInsert {α : Type} (l : List (String × α)) (k : String) (v : α) :
    List (String × α) :=
  if l.any (·.1 == k) then l.map (fun p => if p.1 == k then (k, v) else p)
  else l ++ [(k, v)]

def dedupFirstAux {α : Type} [DecidableEq α] (seen : List α) : List α → List α
  | [] => []
  | x :: xs => if x ∈ seen then dedupFirstAux seen xs
               else x :: dedupFirstAux (x :: seen) xs

/-- `pandas.Series.unique`: distinct values in first-occurrence order. -/
def dedupFirst {α : Type} [DecidableEq α] (l : List α) : List α :=
  dedupFirstAux [] l

/-- Insert `x` before the first element `y` with `le x y` (stable insertion). -/
def ordInsert {α : Type} (le : α → α → Bool) (x : α) : List α → List α
  | [] => [x]
  | y :: ys => if le x y then x :: y :: ys else y :: ordInsert le x ys

/-- Stable insertion sort; for a total preorder `le` this computes the same
list as Python's stable `sorted`. -/
def isortBy {α : Type} (le : α → α → Bool) : List α → List α
  | [] => []
  | x :: xs => ordInsert le x (isortBy le xs)

/-- Order on optional distances, `none` meaning `float("inf")`. -/
def optLe : Option Nat → Option Nat → Bool
  | some a, some b => decide (a ≤ b)
  | some _, none => true
  | none, some _ => false
  | none, none => true

def charListLt : List Char → List Char → Bool
  | [], [] => false
  | [], _ :: _ => true
  | _ :: _, [] => false
  | a :: as, b :: bs => if a == b then charListLt as bs else decide (a.val < b.val)

/-- Python `<` on strings: lexicographic by code point. -/
def strLtB (a b : String) : Bool := charListLt a.data b.data

def strLeB (a b : String) : Bool := a == b || strLtB a b

/-- `str(value)` of an optional cell, as `pandas.Series.astype(str)` renders
it: a missing value (NaN) prints as `"nan"`. -/
def pyStrOfOpt : Option String → String
  | some s => s
  | none => "nan"

/-- Strip a single character from both ends (Python `str.strip(c)`). -/
def stripChar (c : Char) (s : String) : String :=
  String.mk (((s.data.dropWhile (· == c)).reverse.dropWhile (· == c)).reverse)

/-- Python `str.strip()`: whitespace stripped from both ends. -/
def pyStrip (s : String) : String :=
  String.mk (((s.data.dropWhile Char.isWhitespace).reverse.dropWhile
    Char.isWhitespace).reverse)

/-- Python `str.lower()` (ASCII). -/
def pyLower (s : String) : String := String.mk (s.data.map Char.toLower)

/-! ## `to_snake_case` (core/utils.py) -/

/-- `\w` of the source regexes, ASCII fragment: letters, digits, underscore. -/
def isWordChar (c : Char) : Bool := c.isAlphanum || c == '_'

/-- `re.sub(r"\W+", "_", s)`: each maximal run of non-word characters becomes
a single underscore.  The flag records whether the previous character was
part of such a run. -/
def collapseNonWord : Bool → List Char → List Char
  | _, [] => []
  | prevNW, c :: cs =>
    if isWordChar c then c :: collapseNonWord false cs
    else if prevNW then collapseNonWord true cs
    else '_' :: collapseNonWord true cs

/-- Insert `_` between each adjacent pair satisfying `p` (the two-character
substitution regexes of `to_snake_case`; matches cannot overlap because no
character satisfies both sides of any of the patterns). -/
def insertBoundary (p : Char → Char → Bool) : List Char → List Char
  | [] => []
  | [c] => [c]
  | a :: b :: cs =>
    if p a b then a :: '_' :: insertBoundary p (b :: cs)
    else a :: insertBoundary p (b :: cs)

def digitThenAlpha (a b : Char) : Bool := a.isDigit && b.isAlpha

def alphaThenDigit (a b : Char) : Bool := a.isAlpha && b.isDigit

def lowerThenUpper (a b : Char) : Bool := (a.isLower || a.isDigit) && b.isUpper

/-- `utils.to_snake_case` (ASCII fragment of the Python regexes). -/
def toSnakeCase (s : String) : String :=
  let cs := collapseNonWord false s.data
  let cs := insertBoundary digitThenAlpha cs
  let cs := insertBoundary alphaThenDigit cs
  let cs := insertBoundary lowerThenUpper cs
  let cs := cs.map Char.toLower
  String.mk ((cs.dropWhile (· == '_')).reverse.dropWhile (· == '_')).reverse

/-! ## Values and dataframes -/

/-- A cell value.  Floats are modelled by rationals; `null` is NaN/None. -/
inductive Value where
  | null
  | str (s : String)
  | int (n : Int)
  | float (q : ℚ)
deriving DecidableEq

/-- A dataframe: ordered list of named columns (positional row index). -/
structure DataFrame where
  cols : List (String × List Value)
deriving DecidableEq

def DataFrame.names (df : DataFrame) : List String := df.cols.map (·.1)

def DataFrame.getCol (df : DataFrame) (n : String) : Option (List Value) :=
  (df.cols.find? (·.1 == n)).map (·.2)

def DataFrame.nRows (df : DataFrame) : Nat :=
  (df.cols.head?.map (·.2.length)).getD 0

/-- `df[name] = values`: overwrite every column labelled `name`, else append. -/
def dfAssign (df : DataFrame) (n : String) (vs : List Value) : DataFrame :=
  if df.cols.any (·.1 == n) then
    ⟨df.cols.map (fun p => if p.1 == n then (n, vs) else p)⟩
  else ⟨df.cols ++ [(n, vs)]⟩

/-- `df.rename(columns=mapping)`. -/
def dfRename (df : DataFrame) (mapping : List (String × String)) : DataFrame :=
  ⟨df.cols.map (fun p => ((dictGet mapping p.1).getD p.1, p.2))⟩

/-! ## Decision log (core/logging.py) -/

inductive TaskStatus where
  | success | failed | running | skipped | unknown
deriving DecidableEq

inductive TaskType where
  | retrieve | download | extract | pool | process
deriving DecidableEq

inductive MappingType where
  | freeText | xref
deriving DecidableEq

inductive ColumnInferenceType where
  | derived | extracted
deriving DecidableEq

inductive DecisionType where
  | retrievalTypeIdentified | extractionTypeIdentified | urlRetrieved
  | fileCopied | fileFormatIdentified | schemaIdentified
  | columnAligned | unableToProcess
deriving DecidableEq

/-- `utils.Mapping` (a resolved mention). -/
structure Mapping where
  id : String
  mention : String
  types : List String
  name : String
  score : ℚ
  normalisedScore : Option ℚ := none
  mappingId : Option Int := none
deriving DecidableEq

/-- The per-column `Operation` union of core/logging.py.  The `data` payload
of an inference operation (`Any` in the source) is modelled as an optional
string. -/
inductive Operation where
  | rename (originalName newName : String)
  | mapping (type : MappingType) (mappings : List Mapping)
  | inference (type : ColumnInferenceType) (data : Option String)
  | setValue (value : Option Value)
  | mapToNull (values : List Value)
deriving DecidableEq

structure ColumnAlignment where
  columnName : String
  operations : List Operation
deriving DecidableEq

inductive DecisionContent where
  | text (s : String)
  | alignment (a : ColumnAlignment)
deriving DecidableEq

structure Decision where
  type : DecisionType
  content : DecisionContent
deriving DecidableEq

structure Argument where
  name : String
  value : String
deriving DecidableEq

structure NodeMetadata where
  name : String
  type : TaskType
  status : TaskStatus := .unknown
  logs : List String := []
  decisions : List Decision := []
  arguments : List Argument := []
  duration : ℚ := 0
deriving DecidableEq

structure LoggedNode where
  id : String
  name : String
  data : NodeMetadata
  upstreamNodeIds : List String := []
deriving DecidableEq

/-- `LoggingSession`: mutation is modelled by returning the updated session. -/
structure LoggingSession where
  node : Option LoggedNode := none
deriving DecidableEq

/-- `LoggingSession.get_session()`: the ambient class variable, or a fresh
node-less session when none is active. -/
def LoggingSession.getSession (ambient : Option LoggingSession) : LoggingSession :=
  ambient.getD {}

def LoggingSession.nodeIsSet (s : LoggingSession) : Bool := s.node.isSome

def LoggingSession.logDecision (s : LoggingSession) (d : Decision) : LoggingSession :=
  match s.node with
  | none => s
  | some nd =>
    ⟨some { nd with data := { nd.data with decisions := nd.data.decisions ++ [d] } }⟩

/-- Whether `get_column_alignments_as_dict` has a binding for `cn`. -/
def hasAlignmentFor (ds : List Decision) (cn : String) : Bool :=
  ds.any (fun d => match d.content with
    | .alignment a => a.columnName == cn
    | _ => false)

/-- Append `op` to the LAST decision whose column alignment is named `cn`
(the dict comprehension keeps the last binding per column name); the input
list is reversed, so the first match is updated. -/
def appendToLastAlignmentRev (cn : String) (op : Operation) :
    List Decision → List Decision
  | [] => []
  | d :: ds =>
    match d.content with
    | .alignment a =>
      if a.columnName == cn then
        { d with content := .alignment { a with operations := a.operations ++ [op] } } :: ds
      else d :: appendToLastAlignmentRev cn op ds
    | _ => d :: appendToLastAlignmentRev cn op ds

def LoggingSession.logColumnAlignmentOp (s : LoggingSession) (cn : String)
    (op : Operation) : LoggingSession :=
  match s.node with
  | none => s
  | some nd =>
    let ds := nd.data.decisions
    if hasAlignmentFor ds cn then
      ⟨some { nd with data := { nd.data with
        decisions := (appendToLastAlignmentRev cn op ds.reverse).reverse } }⟩
    else s.logDecision ⟨.columnAligned, .alignment ⟨cn, [op]⟩⟩

def LoggingSession.logStatus (s : LoggingSession) (st : TaskStatus) : LoggingSession :=
  match s.node with
  | none => s
  | some nd => ⟨some { nd with data := { nd.data with status := st } }⟩

def LoggingSession.decisions (s : LoggingSession) : List Decision :=
  match s.node with
  | none => []
  | some nd => nd.data.decisions

/-! ## LLM oracles and errors -/

/-- The external LLM service, one oracle per call site of the engine; each
takes the semantically relevant prompt inputs and returns the answer text.
`classifyAnswer` additionally takes the attempt number (the re-executed
`llm.ainvoke` of a retried `_classify_mention` call may answer differently
or raise, modelled by `Except`). -/
structure LlmOracle where
  columnNameAnswer : DataFrame → String → String
  isFreeTextAnswer : List String → String
  pfxAnswer : String → List String → List (Option String) → String
  classifyAnswer : String → List String → Nat → Except String String

inductive AlignError where
  | missingRequiredColumn (name : String)
  | schemaValidation (column : String) (msg : String)
  | coercion (column : String)
  | notImplemented (msg : String)
  | typeError (msg : String)
  | llmCall (msg : String)
  | indexError
deriving DecidableEq

/-! ## Entity normalisation (core/normalisation/entity.py) -/

/-- A pandas Series of string-or-missing values with a name. -/
structure Series where
  name : String
  values : List (Option String)
deriving DecidableEq

/-- The `Entity` namedtuple of `_classify` (name, id, score). -/
structure REntity where
  name : String
  id : String
  score : ℚ
deriving DecidableEq

/-- A row of `_retrieve`'s output frame: [id, name, score] tagged with the
mention it was retrieved for. -/
structure RetrievedRow where
  id : String
  name : String
  score : ℚ
  mention : String
deriving DecidableEq

/-- A row of the frame handed to `_finalise_output`: entity id and name,
the source mention (possibly missing) and the confidence score. -/
structure ResultRow where
  id : String
  name : String
  mention : Option String
  score : ℚ
deriving DecidableEq

/-- A row of `OntologyStore.load_xref_mapping(..., additional_columns=[name])`:
one (id, xref, name) triple per exploded xref, null xrefs dropped. -/
structure XrefRow where
  id : String
  xref : String
  name : String
deriving DecidableEq

/-- Absolute value on rationals (kept elementary so it evaluates). -/
def ratAbs (q : ℚ) : ℚ := if q < 0 then -q else q

/-- `np.isclose(a, b)` with the default tolerances, over rationals:
`|a - b| <= atol + rtol * |b|`, `atol = 1e-8`, `rtol = 1e-5`. -/
def isClose (a b : ℚ) : Bool :=
  decide (ratAbs (a - b) ≤ 1 / 100000000 + (1 / 100000) * ratAbs b)

/-- One execution of the `_classify_mention` body: short-circuit on a
top score ≈ 1.0, otherwise one LLM call; an answer matching no candidate
name falls back to the first entity with a warning.  Returns the selected
entity, whether a warning was logged, and the number of LLM calls made.
`entities[0]` on an empty list is an IndexError (not retried). -/
def classifyMentionAttempt (llm : LlmOracle) (mention : String)
    (entities : List REntity) (attempt : Nat) :
    Except AlignError (REntity × Bool × Nat) :=
  match entities with
  | [] => .error .indexError
  | e :: _ =>
    if isClose e.score 1 then .ok (e, false, 0)
    else
      match llm.classifyAnswer mention (entities.map (·.name)) attempt with
      | .error exc => .error (.llmCall exc)
      | .ok response =>
        match dictGet (entities.map (fun x => (x.name, x))) response with
        | some sel => .ok (sel, false, 1)
        | none => .ok (e, true, 1)

/-- The tenacity retry loop around `_classify_mention`:
`stop_after_attempt(5)`, `retry_if_exception_type(_LlmCallException)`,
`reraise=True`.  `fuel` is the number of attempts still allowed; the
accumulated LLM call count is threaded through. -/
def classifyMentionLoop (llm : LlmOracle) (mention : String)
    (entities : List REntity) : Nat → Nat → Nat →
    Except AlignError (REntity × Bool × Nat)
  | _, 0, _ => .error .indexError
  | attempt, fuel + 1, acc =>
    match classifyMentionAttempt llm mention entities attempt with
    | .ok (ent, warned, n) => .ok (ent, warned, acc + n)
    | .error (.llmCall exc) =>
      if fuel == 0 then .error (.llmCall exc)
      else classifyMentionLoop llm mention entities (attempt + 1) fuel (acc + 1)
    | .error other => .error other

/-- `_classify_mention` with its retry policy: up to 5 total attempts. -/
def classifyMention (llm : LlmOracle) (mention : String)
    (entities : List REntity) : Except AlignError (REntity × Bool × Nat) :=
  classifyMentionLoop llm mention entities 0 5 0

/-- `_retrieve`: dense-retrieve the distinct non-null mentions (first
occurrence order) and tag each retrieved candidate with its mention.  The
retriever oracle maps a query and `top_k` to ranked candidates. -/
def retrieveRows (retriever : String → Nat → List REntity) (series : Series)
    (topK : Nat) : List RetrievedRow :=
  (dedupFirst (series.values.filterMap id)).flatMap
    (fun m => (retriever m topK).map (fun e => ⟨e.id, e.name, e.score, m⟩))

/-- `_classify`: group the retrieved rows by mention (pandas `groupby` sorts
the keys), classify each mention, one output row per mention.  Chunked
dispatch (batches of 64) only bounds concurrency; the concatenated result
order is the grouped order, so it is invisible here. -/
def classifyAll (llm : LlmOracle) (rows : List RetrievedRow) :
    Except AlignError (List RetrievedRow) :=
  (isortBy strLeB (dedupFirst (rows.map (·.mention)))).mapM
    (fun m =>
      let group := rows.filter (·.mention == m)
      (classifyMention llm m (group.map (fun r => ⟨r.name, r.id, r.score⟩))).map
        (fun res => ⟨res.1.id, res.1.name, res.1.score, m⟩))

/-- `_log_mappings`. -/
def logMappings (results : List ResultRow) (seriesName : String)
    (entityTypes : List String) (mappingType : MappingType)
    (log : LoggingSession) : LoggingSession :=
  log.logColumnAlignmentOp seriesName
    (.mapping mappingType
      (results.map (fun r => ⟨r.id, pyStrOfOpt r.mention, entityTypes, r.name, r.score, none, none⟩)))

/-- `_finalise_output`: log the mappings, then right-merge the results onto
the original series by mention and keep the first match per row (the
groupby-first dedup heuristic); rows whose mention has no match get null.
The output is index-aligned with the input series. -/
def finaliseOutput (results : List ResultRow) (series : Series)
    (entityTypes : List String) (mappingType : MappingType)
    (log : LoggingSession) : List (Option String) × LoggingSession :=
  (series.values.map (fun m => (results.find? (fun r => r.mention == m)).map (·.id)),
   logMappings results series.name entityTypes mappingType log)

/-- Left of the first `:` of an xref, per `xrefs.str.extract(r"(.+?):")`:
the leftmost-shortest match requires at least one character before a colon,
so the result is everything before the first colon at index ≥ 1 (`none`
when there is no such colon). -/
def takeUntilColon : List Char → Option (List Char)
  | [] => none
  | c :: cs => if c == ':' then some [] else (takeUntilColon cs).map (c :: ·)

def extractCuriePfx (s : String) : Option String :=
  match s.data with
  | [] => none
  | c :: rest => (takeUntilColon rest).map (fun pre => String.mk (c :: pre))

/-- `_get_available_curie_prefixes`: distinct extracted prefixes, sorted.
A non-matching xref extracts to NaN (`none`); Python's `sorted` raises
`TypeError` when NaN is mixed with strings. -/
def availableCuriePfxs (xrefs : List String) : Except AlignError (List (Option String)) :=
  let uniq := dedupFirst (xrefs.map extractCuriePfx)
  if uniq.contains none && decide (1 < uniq.length) then
    .error (.typeError "unorderable types: float() < str()")
  else
    .ok (isortBy (fun a b =>
      match a, b with
      | some x, some y => strLeB x y
      | _, _ => true) uniq)

/-- `_get_curie_prefix_if_needed`: sample up to 5 distinct values, ask the
LLM once, strip the answer; an answer outside the offered prefixes means
"proceed without prefixing" plus a warning (second component). -/
def getCuriePfxIfNeeded (llm : LlmOracle) (series : Series)
    (availablePfxs : List (Option String)) : Option String × Bool :=
  let sample := (dedupFirst (series.values.filterMap id)).take 5
  let response := pyStrip (llm.pfxAnswer series.name sample availablePfxs)
  if availablePfxs.contains (some response) then (some response, false)
  else (none, true)

/-- `response.lower().strip().strip(".").strip("'")` of `is_free_text`. -/
def normalizeFreeTextResp (r : String) : String :=
  stripChar '\'' (stripChar '.' (pyStrip (pyLower r)))

/-- `is_free_text`: one LLM call on up to 10 distinct sample values. -/
def isFreeText (llm : LlmOracle) (series : Series) : Bool :=
  let sample := (dedupFirst (series.values.filterMap id)).take 10
  normalizeFreeTextResp (llm.isFreeTextAnswer sample) == "free text"

inductive NormalisationAlgorithm where
  | retrieval
  | retrievalAndClassification
  | agenticRetrievalAndClassification
deriving DecidableEq

/-- `EntityNormaliser`: entity types are carried by name; the ontology
store's exploded xref view and the dense retriever are inputs. -/
structure EntityNormaliser where
  types : List String
  xrefTable : List XrefRow
  retriever : String → Nat → List REntity
  llm : LlmOracle
  algorithm : NormalisationAlgorithm := .retrieval

def RetrievedRow.toResultRow (r : RetrievedRow) : ResultRow :=
  ⟨r.id, r.name, some r.mention, r.score⟩

/-- `EntityNormaliser.normalise`.  Returns the id series (index-aligned with
the input) and the updated decision log. -/
def EntityNormaliser.normalise (norm : EntityNormaliser) (series : Series)
    (log : LoggingSession) :
    Except AlignError (List (Option String) × LoggingSession) :=
  if (series.values.filterMap id).isEmpty then .ok (series.values, log)
  else if isFreeText norm.llm series then
    match norm.algorithm with
    | .retrieval =>
      .ok (finaliseOutput ((retrieveRows norm.retriever series 1).map (·.toResultRow))
            series norm.types .freeText log)
    | .retrievalAndClassification =>
      (classifyAll norm.llm (retrieveRows norm.retriever series 10)).map
        (fun rows => finaliseOutput (rows.map (·.toResultRow))
          series norm.types .freeText log)
    | .agenticRetrievalAndClassification =>
      .error (.notImplemented "Algorithm not implemented for free text")
  else
    (availableCuriePfxs (norm.xrefTable.map (·.xref))).bind (fun avail =>
      let mapping : List (Option String × Option String) :=
        series.values.map (fun v => (v, v))
      let mapping :=
        if !avail.isEmpty then
          match (getCuriePfxIfNeeded norm.llm series avail).1 with
          | some p =>
            series.values.map (fun v => (v, some (p ++ ":" ++ pyStrOfOpt v)))
          | none => mapping
        else mapping
      let merged := norm.xrefTable.flatMap (fun x =>
        mapping.filterMap (fun mr =>
          if mr.2 == some x.xref then some (x.id, x.name, x.xref, mr.1) else none))
      let results := (dedupFirst merged).map
        (fun r => ResultRow.mk r.1 r.2.1 r.2.2.2 1)
      .ok (finaliseOutput results series norm.types .xref log))

/-! ## Schemas and column inference (core/schemas/base.py) -/

/-- `ColumnInferenceSession`.  The source session also carries the target
schema; no inference rule of the repository reads it, and including it here
would make `Schema` self-referential, so it is omitted. -/
structure ColumnInferenceSession where
  dataframe : DataFrame
  llm : LlmOracle
  context : List String
  filePath : String

/-- `ColumnInference`: a guard over the session, an inference function
returning the column values plus optional auxiliary data, a kind tag, and
the declared upstream column names. -/
structure ColumnInference where
  condition : ColumnInferenceSession → Bool
  inference : ColumnInferenceSession → List Value × Option String
  type : ColumnInferenceType := .derived
  upstreamColumns : List String := []

/-- `ColumnInference.when_has_columns`. -/
def ColumnInference.whenHasColumns (columnNames : List String)
    (inference : ColumnInferenceSession → List Value × Option String)
    (type : ColumnInferenceType := .derived) : ColumnInference :=
  { condition := fun session => columnNames.all (session.dataframe.names.contains ·),
    inference := inference,
    type := type,
    upstreamColumns := columnNames }

/-- `ColumnInference.when_has_context`. -/
def ColumnInference.whenHasContext
    (inference : ColumnInferenceSession → List Value × Option String)
    (type : ColumnInferenceType := .extracted) : ColumnInference :=
  { condition := fun session => !session.context.isEmpty,
    inference := inference,
    type := type }

/-- Declared value type of a column: a primitive, or a parameterized entity
type carrying its normaliser (core/data_types.py `EntityType`). -/
inductive DType where
  | str
  | int
  | float
  | entity (norm : EntityNormaliser)

/-- A `pandera.Column` together with the `ColumnMetadata` stored in its
`metadata` field (aliases and inference rules); pandera defaults:
`nullable=False`, `required=True`, `default=None`. -/
structure Column where
  name : String
  dtype : DType
  nullable : Bool := false
  required : Bool := true
  default : Option Value := none
  description : String := ""
  aliases : List String := []
  inferences : List ColumnInference := []

/-- A `pandera.DataFrameSchema` as built by `schemas.base.schema(...)`
(`strict="filter"`, `coerce=True`). -/
structure Schema where
  name : String
  description : String
  columns : List Column

def Schema.colNames (s : Schema) : List String := s.columns.map (·.name)

def Schema.hasCol (s : Schema) (n : String) : Bool := s.columns.any (·.name == n)

/-- `schema.columns[name]` (column names are unique within a schema). -/
def Schema.lookupCol (s : Schema) (n : String) : Option Column :=
  s.columns.find? (·.name == n)

/-! ## Column inference scheduling (`_sort_columns_based_on_dependencies`) -/

def availableNode : String := "<AVAILABLE>"

/-- The dependency digraph: one edge list entry per inference rule
dependency.  An `extracted` rule with context available points straight to
the `<AVAILABLE>` sink; otherwise each upstream dependency contributes an
edge to the sink (if that dependency is not missing) or to the dependency
itself (if it is).  Parallel edges are harmless for shortest paths. -/
def depGraphEdges (schema : Schema) (missingNames : List String) (ctx : Bool) :
    List (String × String) :=
  schema.columns.flatMap (fun c =>
    c.inferences.flatMap (fun inf =>
      if inf.type == ColumnInferenceType.extracted && ctx then
        [(c.name, availableNode)]
      else
        inf.upstreamColumns.map (fun d =>
          if missingNames.contains d then (c.name, d) else (c.name, availableNode))))

def succs (edges : List (String × String)) (n : String) : List String :=
  edges.filterMap (fun e => if e.1 == n then some e.2 else none)

/-- Breadth-first shortest path length (`nx.shortest_path_length` on the
unweighted digraph); `none` models `NetworkXNoPath` → `float("inf")`. -/
def bfsDistGo (edges : List (String × String)) (target : String) :
    Nat → List String → List String → Nat → Option Nat
  | 0, _, _, _ => none
  | fuel + 1, frontier, visited, d =>
    if frontier.isEmpty then none
    else if frontier.contains target then some d
    else
      let next := dedupFirst
        ((frontier.flatMap (succs edges)).filter (fun n => !(visited.contains n)))
      bfsDistGo edges target fuel next (visited ++ next) (d + 1)

def bfsDist (edges : List (String × String)) (start target : String) : Option Nat :=
  bfsDistGo edges target (edges.length + 1) [start] [start] 0

/-- `_sort_columns_based_on_dependencies`.  `setOrder` is the iteration
order of the Python set `missing_column_names` (an unspecified enumeration
of the missing columns' names); `sorted(scored_columns, key=...)` is a
stable sort of that enumeration by score. -/
def sortColumnsBasedOnDependencies (schema : Schema) (missing : List Column)
    (ctx : Bool) (setOrder : List String) : List Column :=
  let names := missing.map (·.name)
  let edges := depGraphEdges schema names ctx
  let score := fun n => bfsDist edges n availableNode
  (isortBy (fun a b => optLe (score a) (score b)) setOrder).filterMap
    schema.lookupCol

/-! ## Column name matching and alignment (`align_dataframe_to_schema`) -/

/-- `get_column_name`: the dataframe's column names are snake-cased for the
prompt; the LLM's raw answer is looked up in the snake-cased → original
dict, so only an answer matching a snake-cased name maps back to (and
renames) an original column; anything else is `None` (no match). -/
def getColumnName (df : DataFrame) (c : Column) (llm : LlmOracle) : Option String :=
  let columnMap := List.zip (df.names.map toSnakeCase) df.names
  dictGet columnMap (llm.columnNameAnswer df c.name)

/-- Alignment environment: the LLM service and the Python-set enumeration
used for `missing_column_names` (see module header). -/
structure AlignEnv where
  llm : LlmOracle
  setEnum : List String → List String

/-- The first declared alias present among the dataframe's columns. -/
def aliasHit (c : Column) (df : DataFrame) : Option String :=
  c.aliases.find? (fun a => df.names.contains a)

/-- One iteration of phase 1 of `align_dataframe_to_schema`: try the
column's aliases against the (original) dataframe, then the LLM matcher;
either extends the rename dict and logs a rename decision, or marks the
column missing. -/
def phase1Step (env : AlignEnv) (df : DataFrame)
    (st : List (String × String) × List Column × LoggingSession) (c : Column) :
    List (String × String) × List Column × LoggingSession :=
  let (mapping, missing, log) := st
  match aliasHit c df with
  | some a =>
    (dictInsert mapping a c.name, missing,
     log.logColumnAlignmentOp c.name (.rename a c.name))
  | none =>
    match getColumnName df c env.llm with
    | some cn =>
      (dictInsert mapping cn c.name, missing,
       log.logColumnAlignmentOp c.name (.rename cn c.name))
    | none => (mapping, missing ++ [c], log)

/-- Phase 1 of `align_dataframe_to_schema`: for every schema column try the
aliases, then the LLM matcher; accumulate the rename dict, the missing
columns (schema order) and the rename decisions. -/
def alignPhase1 (env : AlignEnv) (df : DataFrame) (schema : Schema)
    (log : LoggingSession) :
    List (String × String) × List Column × LoggingSession :=
  schema.columns.foldl (phase1Step env df) ([], [], log)

/-- One iteration of the inference loop of `align_dataframe_to_schema`
(lines 350–385): the first inference rule whose guard holds executes;
with no matching rule, a required non-nullable column without default is a
fatal `MissingRequiredColumnError` (the source raises `ValueError`), and
otherwise the default value is assigned and a set-default decision logged. -/
def inferStep (env : AlignEnv) (ctx : List String) (filePath : String)
    (st : DataFrame × LoggingSession) (c : Column) :
    Except AlignError (DataFrame × LoggingSession) :=
  let (df, log) := st
  let session : ColumnInferenceSession := ⟨df, env.llm, ctx, filePath⟩
  match c.inferences.find? (fun inf => inf.condition session) with
  | some inf =>
    let res := inf.inference session
    .ok (dfAssign df c.name res.1,
         log.logColumnAlignmentOp c.name (.inference inf.type res.2))
  | none =>
    if c.required && !c.nullable && c.default.isNone then
      .error (.missingRequiredColumn c.name)
    else
      .ok (dfAssign df c.name (List.replicate df.nRows (c.default.getD .null)),
           log.logColumnAlignmentOp c.name (.setValue c.default))

def inferFold (env : AlignEnv) (ctx : List String) (filePath : String)
    (st : DataFrame × LoggingSession) (cs : List Column) :
    Except AlignError (DataFrame × LoggingSession) :=
  cs.foldlM (inferStep env ctx filePath) st

/-! ## Schema validation (`schema.validate`, pandera semantics) -/

/-- Coercion of a primitive dtype (`pandas.astype` essentials: nulls pass
through; ints widen to float; floats truncate to int; numeric strings
parse — modelled for integer literals). -/
def coerceValue : DType → Value → Option Value
  | _, .null => some .null
  | .str, .str s => some (.str s)
  | .str, .int n => some (.str (toString n))
  | .str, .float q => some (.str (toString q))
  | .int, .int n => some (.int n)
  | .int, .float q => some (.int (q.num.tdiv (q.den : Int)))
  | .int, .str s => s.toInt?.map .int
  | .float, .int n => some (.float n)
  | .float, .float q => some (.float q)
  | .float, .str s => s.toInt?.map (fun n => .float n)
  | .entity _, _ => none

/-- `pd.api.types.is_string_dtype`-style guard of `EntityType.coerce`. -/
def isStrDtype (vs : List Value) : Bool :=
  vs.all (fun v => match v with
    | .str _ => true
    | .null => true
    | _ => false)

def valToOptStr : Value → Option String
  | .str s => some s
  | _ => none

/-- All-or-nothing elementwise coercion (`Series.astype` fails as a whole
when any element fails). -/
def mapOption {α β : Type} (f : α → Option β) : List α → Option (List β)
  | [] => some []
  | a :: as =>
    match f a with
    | none => none
    | some b => (mapOption f as).map (b :: ·)

def coercePrim (t : DType) (colName : String) (vs : List Value) :
    Except AlignError (List Value) :=
  match mapOption (coerceValue t) vs with
  | some vs' => .ok vs'
  | none => .error (.coercion colName)

/-- Coerce one dataframe column to its schema column's dtype.  An entity
dtype normalises the column (`EntityType.coerce` → `normaliser.normalise`),
which appends mapping decisions to the log and yields a string id series. -/
def coerceColumn (c : Column) (colName : String) (vs : List Value)
    (log : LoggingSession) :
    Except AlignError (List Value × LoggingSession) :=
  match c.dtype with
  | .entity norm =>
    if isStrDtype vs then
      (norm.normalise ⟨colName, vs.map valToOptStr⟩ log).map
        (fun r => (r.1.map (fun o => match o with
          | some s => Value.str s
          | none => Value.null), r.2))
    else .error (.coercion colName)
  | prim => (coercePrim prim colName vs).map (fun vs' => (vs', log))

/-- Validate one column: fill nulls with the column default when one is
declared (pandera's `set_default`, applied before coercion), coerce, then
enforce nullability. -/
def validateColumn (c : Column) (colName : String) (vs : List Value)
    (log : LoggingSession) :
    Except AlignError (List Value × LoggingSession) :=
  let vs0 := match c.default with
    | some d => vs.map (fun v => if v = .null then d else v)
    | none => vs
  (coerceColumn c colName vs0 log).bind (fun r =>
    if !c.nullable && r.1.any (· = .null) then
      .error (.schemaValidation colName "non-nullable series contains null values")
    else .ok r)

/-- One column-validation step of `schema.validate` (the unnamed-column
branch cannot fire on the filtered input; it passes the column through,
matching pandera's behaviour for columns it has no spec for). -/
def validateStep (schema : Schema)
    (acc : List (String × List Value) × LoggingSession)
    (p : String × List Value) :
    Except AlignError (List (String × List Value) × LoggingSession) :=
  match schema.lookupCol p.1 with
  | some c =>
    (validateColumn c p.1 p.2 acc.2).map
      (fun (r : List Value × LoggingSession) => (acc.1 ++ [(p.1, r.1)], r.2))
  | none => Except.ok (acc.1 ++ [p], acc.2)

/-- `schema.validate(df)` with `strict="filter"` and `coerce=True`:
extra columns are dropped, required schema columns must be present, each
remaining column is coerced and checked against its spec. -/
def validateSchema (schema : Schema) (df : DataFrame) (log : LoggingSession) :
    Except AlignError (DataFrame × LoggingSession) :=
  let filtered := df.cols.filter (fun p => schema.hasCol p.1)
  match schema.columns.find? (fun c => c.required && !(df.names.contains c.name)) with
  | some c => .error (.schemaValidation c.name "column not in dataframe")
  | none =>
    (filtered.foldlM (validateStep schema) ([], log)).map
      (fun (r : List (String × List Value) × LoggingSession) =>
        ((⟨r.1⟩ : DataFrame), r.2))

/-- `align_dataframe_to_schema`: map/rename columns (phase 1), infer the
missing ones in dependency order, validate. -/
def alignDataframeToSchema (env : AlignEnv) (df : DataFrame) (schema : Schema)
    (context : List String) (filePath : String) (log : LoggingSession) :
    Except AlignError (DataFrame × LoggingSession) :=
  let p1 := alignPhase1 env df schema log
  let df1 := dfRename df p1.1
  let missing := p1.2.1
  let sorted := sortColumnsBasedOnDependencies schema missing
    (!context.isEmpty) (env.setEnum (missing.map (·.name)))
  (inferFold env context filePath (df1, p1.2.2) sorted).bind
    (fun st => validateSchema schema st.1 st.2)

/-- Boolean validity of a dataframe against a schema: no extra columns,
every column's values match its declared dtype, nulls only where nullable. -/
def typeMatchesB : DType → Value → Bool
  | _, .null => true
  | .str, .str _ => true
  | .int, .int _ => true
  | .float, .float _ => true
  | .entity _, .str _ => true
  | _, _ => false

def validatedB (schema : Schema) (df : DataFrame) : Bool :=
  df.cols.all (fun p =>
    match schema.lookupCol p.1 with
    | none => false
    | some c =>
      p.2.all (typeMatchesB c.dtype) &&
      (c.nullable || p.2.all (fun v => !(v == .null))))

/-! ## Concrete instances used by witnesses and counterexamples -/

/-- An LLM oracle with constant answers (used to instantiate theorems). -/
def constLlm (colAns ftAns pfxAns : String) (clsAns : Except String String) :
    LlmOracle :=
  ⟨fun _ _ => colAns, fun _ => ftAns, fun _ _ _ => pfxAns, fun _ _ _ => clsAns⟩

/-- A set enumeration that happens to keep insertion order. -/
def idEnum : List String → List String := fun l => l

/-- The column-aligned decision holding a single identity rename. -/
def identRenameDecision (n : String) : Decision :=
  ⟨.columnAligned, .alignment ⟨n, [.rename n n]⟩⟩

def wEnvBlank : AlignEnv := ⟨constLlm "" "" "" (.ok ""), idEnum⟩

def wSchemaA : Schema := ⟨"A", "", [{ name := "a", dtype := .str }]⟩

def wDfA : DataFrame := ⟨[("a", [.str "x"])]⟩

def wDfX : DataFrame := ⟨[("x", [.str "u"])]⟩

def wSchemaB : Schema := ⟨"B", "", [{ name := "b", dtype := .str, aliases := ["B"] }]⟩

def wDfB : DataFrame := ⟨[("B", [.str "v"])]⟩

def wDfNCase : DataFrame := ⟨[("N Case", [.str "12"])]⟩

def wColNumCases : Column := { name := "num_cases", dtype := .int }

def wLlmSnake : LlmOracle := constLlm "n_case" "" "" (.ok "")

/-- An inference rule that depends on one other column (its guard and
inference are immaterial to scheduling). -/
def wInfDependsOn (n : String) : ColumnInference :=
  ColumnInference.whenHasColumns [n] (fun _ => ([], none))

def wColCycA : Column := { name := "cycA", dtype := .str, inferences := [wInfDependsOn "cycB"] }

def wColCycB : Column := { name := "cycB", dtype := .str, inferences := [wInfDependsOn "cycA"] }

def wSchemaCyc : Schema := ⟨"C", "", [wColCycA, wColCycB]⟩

def wColTieA : Column := { name := "a", dtype := .str }

def wColTieB : Column := { name := "b", dtype := .str }

def wSchemaTie : Schema := ⟨"T", "", [wColTieA, wColTieB]⟩

def wNode : LoggedNode := ⟨"n1", "node", { name := "node", type := .process }, []⟩

def wColNum : Column := { name := "num", dtype := .str, aliases := ["num"] }

def wSchemaNum : Schema := ⟨"N", "", [wColNum]⟩

def wDfNum : DataFrame := ⟨[("num", [.str "v"])]⟩

def wLlmXref : LlmOracle := constLlm "" "identifiers" "PFX" (.ok "")

def wNormXref : EntityNormaliser :=
  ⟨["disease"], [⟨"EFO:1", "PFX:123", "Alpha"⟩, ⟨"EFO:2", "PFX:456", "Beta"⟩],
   fun _ _ => [], wLlmXref, .retrieval⟩

def wSeriesXref : Series := ⟨"trait_id", [some "123", some "456"]⟩

def wLlmFailing : LlmOracle := constLlm "" "" "" (.error "boom")

def wLlmGarbage : LlmOracle := constLlm "garbage" "" "garbage" (.ok "garbage")

/-! # Theorems -/

/-! ## General helper lemmas -/

theorem dictGet_eq_none {α : Type} (l : List (String × α)) (k : String)
    (h : ∀ p ∈ l, p.1 ≠ k) : dictGet l k = none := by
  unfold dictGet
  rw [List.find?_eq_none.mpr]
  · rfl
  · intro p hp
    simpa using h p (List.mem_reverse.mp hp)

theorem dictGet_diag (ns : List String) (k : String) :
    (dictGet (ns.map (fun n => (n, n))) k).getD k = k := by
  unfold dictGet
  cases hf : (ns.map (fun n => (n, n))).reverse.find? (fun p => p.1 == k) with
  | none => rfl
  | some q =>
    have hq := List.find?_some hf
    have hmem : q ∈ (ns.map (fun n => (n, n))).reverse := List.mem_of_find?_eq_some hf
    rw [List.mem_reverse, List.mem_map] at hmem
    obtain ⟨n, _, rfl⟩ := hmem
    simp only [beq_iff_eq] at hq
    simpa using hq

theorem mem_of_mem_dedupFirstAux {α : Type} [DecidableEq α] :
    ∀ (seen l : List α) (a : α), a ∈ dedupFirstAux seen l → a ∈ l := by
  intro seen l
  induction l generalizing seen with
  | nil => intro a h; simp [dedupFirstAux] at h
  | cons x xs ih =>
    intro a h
    unfold dedupFirstAux at h
    by_cases hx : x ∈ seen
    · simp only [if_pos hx] at h
      exact List.mem_cons_of_mem x (ih seen a h)
    · simp only [if_neg hx] at h
      rcases List.mem_cons.mp h with rfl | h'
      · exact List.mem_cons_self a xs
      · exact List.mem_cons_of_mem x (ih (x :: seen) a h')

theorem mem_of_mem_dedupFirst {α : Type} [DecidableEq α] (l : List α) (a : α)
    (h : a ∈ dedupFirst l) : a ∈ l :=
  mem_of_mem_dedupFirstAux [] l a h

theorem ordInsert_perm {α : Type} (le : α → α → Bool) (x : α) (l : List α) :
    (ordInsert le x l).Perm (x :: l) := by
  induction l with
  | nil => exact List.Perm.refl _
  | cons y ys ih =>
    unfold ordInsert
    by_cases h : le x y
    · simp only [if_pos h]; exact List.Perm.refl _
    · simp only [if_neg h]
      exact (ih.cons y).trans (List.Perm.swap x y ys)

theorem isortBy_perm {α : Type} (le : α → α → Bool) (l : List α) :
    (isortBy le l).Perm l := by
  induction l with
  | nil => exact List.Perm.refl _
  | cons x xs ih =>
    exact (ordInsert_perm le x (isortBy le xs)).trans (ih.cons x)

theorem mem_isortBy {α : Type} (le : α → α → Bool) (l : List α) (a : α) :
    a ∈ isortBy le l ↔ a ∈ l :=
  (isortBy_perm le l).mem_iff

theorem optLe_refl (x : Option Nat) : optLe x x = true := by
  cases x <;> simp [optLe]

/-! ## C10: node-less logging sessions are safe no-ops -/

/-- C10: for every `LoggingSession` whose node is unset — including the
session `LoggingSession.get_session` returns when no session is active —
`log_decision`, `log_column_alignment_op` and `log_status` return normally
and record nothing. -/
theorem C10_nodeless_session_noop (s : LoggingSession) (h : s.node = none)
    (d : Decision) (cn : String) (op : Operation) (st : TaskStatus) :
    s.logDecision d = s ∧ s.logColumnAlignmentOp cn op = s ∧
    s.logStatus st = s ∧ (LoggingSession.getSession none).node = none := by
  obtain ⟨n⟩ := s
  cases h
  exact ⟨rfl, rfl, rfl, rfl⟩

theorem C10_nodeless_session_noop_witness :
    (LoggingSession.mk none).logDecision ⟨.schemaIdentified, .text "GWAS"⟩
        = LoggingSession.mk none ∧
    (LoggingSession.mk none).logColumnAlignmentOp "num_samples" (.setValue none)
        = LoggingSession.mk none ∧
    (LoggingSession.mk none).logStatus .success = LoggingSession.mk none ∧
    (LoggingSession.getSession none).node = none :=
  C10_nodeless_session_noop ⟨none⟩ rfl ⟨.schemaIdentified, .text "GWAS"⟩
    "num_samples" (.setValue none) .success

/-! ## C4: exact-match short-circuit -/

/-- C4: in the retrieval+classification path, a mention whose top retrieved
candidate has similarity ≈ 1.0 (`np.isclose`) issues no LLM classification
call: the top candidate is returned directly, with zero LLM calls, on the
first attempt. -/
theorem C4_exact_match_short_circuit (llm : LlmOracle) (mention : String)
    (e : REntity) (rest : List REntity) (h : isClose e.score 1 = true) :
    classifyMention llm mention (e :: rest) = .ok (e, false, 0) := by
  simp [classifyMention, classifyMentionLoop, classifyMentionAttempt, h]

theorem ratAbs_nonneg (q : ℚ) : 0 ≤ ratAbs q := by
  unfold ratAbs
  split <;> linarith

theorem isClose_refl (b : ℚ) : isClose b b = true := by
  simp only [isClose, decide_eq_true_eq, sub_self]
  have h := ratAbs_nonneg b
  have h0 : ratAbs 0 = 0 := by norm_num [ratAbs]
  rw [h0]
  nlinarith

theorem C4_exact_match_short_circuit_witness :
    isClose (1 : ℚ) 1 = true ∧
    classifyMention (constLlm "" "" "" (.ok "")) "asthma"
        [⟨"Alpha", "ID:1", 1⟩] = .ok (⟨"Alpha", "ID:1", 1⟩, false, 0) :=
  ⟨isClose_refl 1, C4_exact_match_short_circuit (constLlm "" "" "" (.ok "")) "asthma"
    ⟨"Alpha", "ID:1", 1⟩ [] (isClose_refl 1)⟩

/-! ## C8: bounded retry with final propagation -/

theorem classifyLoop_allFail (llm : LlmOracle) (mention : String)
    (entities : List REntity) (E : Nat → String) :
    ∀ (fuel i acc : Nat), 1 ≤ fuel →
      (∀ j, j < fuel →
        classifyMentionAttempt llm mention entities (i + j)
          = .error (.llmCall (E (i + j)))) →
      classifyMentionLoop llm mention entities i fuel acc
        = .error (.llmCall (E (i + fuel - 1))) := by
  intro fuel
  induction fuel with
  | zero => intro i acc h; omega
  | succ f ih =>
    intro i acc _ hfail
    have h0 : classifyMentionAttempt llm mention entities i
        = .error (.llmCall (E i)) := by
      have := hfail 0 (by omega)
      rwa [Nat.add_zero] at this
    unfold classifyMentionLoop
    rw [h0]
    cases f with
    | zero => simp
    | succ g =>
      have hg : ((g + 1 : Nat) == 0) = false := by simp
      simp only [hg, Bool.false_eq_true, if_false]
      have hrec := ih (i + 1) (acc + 1) (by omega) (fun j hj => by
        have e : i + 1 + j = i + (j + 1) := by omega
        rw [e]
        exact hfail (j + 1) (by omega))
      rw [hrec]
      have e2 : i + 1 + (g + 1) - 1 = i + (g + 1 + 1) - 1 := by omega
      rw [e2]

theorem classifyLoop_succeeds (llm : LlmOracle) (mention : String)
    (entities : List REntity) (E : Nat → String) (ent : REntity) (w : Bool)
    (n : Nat) :
    ∀ (k fuel i acc : Nat), k < fuel →
      (∀ j, j < k →
        classifyMentionAttempt llm mention entities (i + j)
          = .error (.llmCall (E (i + j)))) →
      classifyMentionAttempt llm mention entities (i + k) = .ok (ent, w, n) →
      classifyMentionLoop llm mention entities i fuel acc
        = .ok (ent, w, acc + k + n) := by
  intro k
  induction k with
  | zero =>
    intro fuel i acc hk hfail hok
    obtain ⟨f, rfl⟩ : ∃ f, fuel = f + 1 := ⟨fuel - 1, by omega⟩
    rw [Nat.add_zero] at hok
    unfold classifyMentionLoop
    rw [hok]
    simp
  | succ k ih =>
    intro fuel i acc hk hfail hok
    obtain ⟨f, rfl⟩ : ∃ f, fuel = f + 1 := ⟨fuel - 1, by omega⟩
    have h0 : classifyMentionAttempt llm mention entities i
        = .error (.llmCall (E i)) := by
      have := hfail 0 (by omega)
      rwa [Nat.add_zero] at this
    unfold classifyMentionLoop
    rw [h0]
    have hf : (f == 0) = false := by
      have : f ≠ 0 := by omega
      simp [this]
    simp only [hf, Bool.false_eq_true, if_false]
    have hrec := ih f (i + 1) (acc + 1) (by omega)
      (fun j hj => by
        have e : i + 1 + j = i + (j + 1) := by omega
        rw [e]
        exact hfail (j + 1) (by omega))
      (by
        have e : i + 1 + k = i + (k + 1) := by omega
        rw [e]
        exact hok)
    rw [hrec]
    have e2 : acc + 1 + k + n = acc + (k + 1) + n := by omega
    rw [e2]

/-- C8: an exception raised by the mention-level LLM classification call is
retried up to 5 total attempts; if all 5 attempts raise, the underlying
error of the last attempt propagates (no default entity is substituted);
an attempt that succeeds after earlier failures returns its result. -/
theorem C8_retry_five_then_propagate (llm : LlmOracle) (mention : String)
    (e : REntity) (rest : List REntity) (E : Nat → String)
    (hscore : isClose e.score 1 = false)
    (hfail : ∀ i, i < 5 →
      llm.classifyAnswer mention ((e :: rest).map (·.name)) i = .error (E i)) :
    classifyMention llm mention (e :: rest) = .error (.llmCall (E 4)) ∧
    (∀ (llm2 : LlmOracle) (k : Nat) (ent : REntity) (w : Bool) (n : Nat),
      k < 5 →
      (∀ i, i < k →
        classifyMentionAttempt llm2 mention (e :: rest) i
          = .error (.llmCall (E i))) →
      classifyMentionAttempt llm2 mention (e :: rest) k = .ok (ent, w, n) →
      classifyMention llm2 mention (e :: rest) = .ok (ent, w, k + n)) := by
  have hatt : ∀ j, j < 5 →
      classifyMentionAttempt llm mention (e :: rest) j
        = .error (.llmCall (E j)) := by
    intro j hj
    simp only [classifyMentionAttempt, hscore, Bool.false_eq_true, if_false]
    rw [hfail j hj]
  constructor
  · have : classifyMentionLoop llm mention (e :: rest) 0 5 0
        = .error (.llmCall (E (0 + 5 - 1))) := by
      apply classifyLoop_allFail llm mention (e :: rest) E 5 0 0 (by omega)
      intro j hj
      simp only [Nat.zero_add]
      exact hatt j (by omega)
    simpa [classifyMention] using this
  · intro llm2 k ent w n hk hfail2 hok
    have := classifyLoop_succeeds llm2 mention (e :: rest) E ent w n k 5 0 0 hk
      (fun j hj => by simpa using hfail2 j hj) (by simpa using hok)
    simpa [classifyMention] using this

theorem isClose_half_one : isClose ((1 : ℚ) / 2) 1 = false := by
  simp only [isClose, decide_eq_false_iff_not]
  intro hcon
  have h1 : ratAbs ((1 : ℚ) / 2 - 1) = 1 / 2 := by norm_num [ratAbs]
  have h2 : ratAbs (1 : ℚ) = 1 := by norm_num [ratAbs]
  rw [h1, h2] at hcon
  norm_num at hcon

theorem C8_retry_five_then_propagate_witness :
    isClose ((1 : ℚ) / 2) 1 = false ∧
    classifyMention wLlmFailing "asthma" [⟨"Alpha", "ID:1", 1/2⟩]
      = .error (.llmCall "boom") :=
  ⟨isClose_half_one,
   (C8_retry_five_then_propagate wLlmFailing "asthma" ⟨"Alpha", "ID:1", 1/2⟩ []
     (fun _ => "boom") isClose_half_one (fun _ _ => rfl)).1⟩

/-! ## C3: malformed model output is never fatal -/

/-- C3 (amended): a classification answer matching no candidate name falls
back to the top-similarity candidate with a warning; a stripped CURIE
prefix answer outside the offered prefixes means no prefixing, with a
warning; a column-matcher answer outside the snake_cased source column
names (the option set actually offered to the model) is treated as no
match.  None of the three raises. -/
theorem C3_malformed_output_fallback :
    (∀ (llm : LlmOracle) (mention : String) (e : REntity) (rest : List REntity)
       (r : String),
      isClose e.score 1 = false →
      llm.classifyAnswer mention ((e :: rest).map (·.name)) 0 = .ok r →
      r ∉ (e :: rest).map (·.name) →
      classifyMention llm mention (e :: rest) = .ok (e, true, 1))
    ∧ (∀ (llm : LlmOracle) (series : Series) (avail : List (Option String)),
      avail.contains
        (some (pyStrip (llm.pfxAnswer series.name
          ((dedupFirst (series.values.filterMap id)).take 5) avail))) = false →
      getCuriePfxIfNeeded llm series avail = (none, true))
    ∧ (∀ (df : DataFrame) (c : Column) (llm : LlmOracle),
      llm.columnNameAnswer df c.name ∉ df.names.map toSnakeCase →
      getColumnName df c llm = none) := by
  refine ⟨?_, ?_, ?_⟩
  · intro llm mention e rest r hscore hans hnmem
    have hd : dictGet ((e :: rest).map (fun x => (x.name, x))) r = none := by
      apply dictGet_eq_none
      intro q hq
      rw [List.mem_map] at hq
      obtain ⟨x, hx, rfl⟩ := hq
      intro hcon
      exact hnmem (by
        rw [List.mem_map]
        exact ⟨x, hx, hcon⟩)
    have hstep : classifyMentionAttempt llm mention (e :: rest) 0
        = .ok (e, true, 1) := by
      simp only [classifyMentionAttempt, hscore, Bool.false_eq_true, if_false]
      rw [hans]
      simp only [hd]
    unfold classifyMention
    unfold classifyMentionLoop
    rw [hstep]
  · intro llm series avail hout
    unfold getCuriePfxIfNeeded
    simp only [hout, Bool.false_eq_true, if_false]
  · intro df c llm hout
    unfold getColumnName
    rw [dictGet_eq_none]
    intro q hq
    have := List.of_mem_zip hq
    intro hcon
    exact hout (by rw [← hcon]; exact this.1)

/-- C3 counterexample: with source column `"N Case"`, the LLM answer
`"n_case"` is NOT among the actual source column names, yet `get_column_name`
returns a match (the snake_cased names are the real option set), so such an
answer is not treated as "column missing". -/
theorem C3_counterexample :
    getColumnName wDfNCase wColNumCases wLlmSnake = some "N Case"
    ∧ "n_case" ∉ wDfNCase.names := by
  constructor
  · rfl
  · decide

/-! ## Sorting lemmas for the Column Inference Scheduler -/

theorem ordInsert_skip {α : Type} (le : α → α → Bool) (x : α) :
    ∀ (l1 l2 : List α), (∀ y ∈ l1, le x y = false) →
      ordInsert le x (l1 ++ l2) = l1 ++ ordInsert le x l2 := by
  intro l1
  induction l1 with
  | nil => intro l2 _; rfl
  | cons y ys ih =>
    intro l2 h
    have hy : le x y = false := h y (List.mem_cons_self y ys)
    simp only [List.cons_append, ordInsert, hy, Bool.false_eq_true, if_false,
      List.append_eq]
    rw [ih l2 (fun z hz => h z (List.mem_cons_of_mem y hz))]

theorem ordInsert_front {α : Type} (le : α → α → Bool) (x : α) (l : List α)
    (h : ∀ y ∈ l, le x y = true) : ordInsert le x l = x :: l := by
  cases l with
  | nil => rfl
  | cons y ys =>
    simp only [ordInsert, h y (List.mem_cons_self y ys), if_true]

/-- In a stable sort by an optional-Nat key, all `none`-keyed elements end
up in a suffix, after every finitely-keyed element. -/
theorem isort_key_split {α : Type} (key : α → Option Nat) (l : List α) :
    ∃ l1 l2, isortBy (fun a b => optLe (key a) (key b)) l = l1 ++ l2
      ∧ (∀ x ∈ l1, key x ≠ none) ∧ (∀ x ∈ l2, key x = none) := by
  induction l with
  | nil => exact ⟨[], [], rfl, by simp, by simp⟩
  | cons x xs ih =>
    obtain ⟨l1, l2, hsplit, h1, h2⟩ := ih
    show ∃ g1 g2, ordInsert _ x (isortBy _ xs) = g1 ++ g2 ∧ _ ∧ _
    rw [hsplit]
    by_cases hx : key x = none
    · have hskip : ∀ y ∈ l1, optLe (key x) (key y) = false := by
        intro y hy
        obtain ⟨ky, hky⟩ := Option.ne_none_iff_exists'.mp (h1 y hy)
        rw [hx, hky]
        rfl
      rw [ordInsert_skip _ _ l1 l2 hskip]
      rw [ordInsert_front _ _ l2 (fun y hy => by rw [hx, h2 y hy]; rfl)]
      exact ⟨l1, x :: l2, rfl, h1, by
        intro z hz
        rcases List.mem_cons.mp hz with rfl | hz'
        · exact hx
        · exact h2 z hz'⟩
    · obtain ⟨kx, hkx⟩ := Option.ne_none_iff_exists'.mp hx
      have hstay : ∀ (m1 : List α), (∀ y ∈ m1, key y ≠ none) →
          ∃ m1', (∀ y ∈ m1', key y ≠ none)
            ∧ ordInsert (fun a b => optLe (key a) (key b)) x (m1 ++ l2)
              = m1' ++ l2 := by
        intro m1
        induction m1 with
        | nil =>
          intro _
          refine ⟨[x], by simpa using hx, ?_⟩
          cases hl2 : l2 with
          | nil => rfl
          | cons z zs =>
            have hz : key z = none := h2 z (by rw [hl2]; exact List.mem_cons_self z zs)
            simp only [List.nil_append, ordInsert, hkx, hz]
            rfl
        | cons y ys ihm =>
          intro hm
          by_cases hxy : optLe (key x) (key y) = true
          · refine ⟨x :: y :: ys, ?_, ?_⟩
            · intro z hz
              rcases List.mem_cons.mp hz with rfl | hz'
              · exact hx
              · exact hm _ hz'
            · simp only [List.cons_append, ordInsert, hxy, if_true,
                List.append_eq]
          · obtain ⟨m1', hm1', heq⟩ := ihm (fun z hz => hm z (List.mem_cons_of_mem y hz))
            refine ⟨y :: m1', ?_, ?_⟩
            · intro z hz
              rcases List.mem_cons.mp hz with rfl | hz'
              · exact hm _ (List.mem_cons_self _ _)
              · exact hm1' z hz'
            · simp only [List.cons_append, ordInsert, hxy, Bool.false_eq_true,
                if_false, List.append_eq]
              rw [heq]
      obtain ⟨l1', hl1', heq⟩ := hstay l1 h1
      exact ⟨l1', l2, heq, hl1', h2⟩

/-- Stability of the insertion sort: two elements with `le a b`, appearing
as the sublist `[a, b]` of the input, appear in that relative order in the
output. -/
theorem ordInsert_pair {α : Type} (le : α → α → Bool) (a b : α)
    (hab : le a b = true) :
    ∀ (m : List α), b ∈ m → [a, b].Sublist (ordInsert le a m) := by
  intro m
  induction m with
  | nil => intro h; simp at h
  | cons y ys ih =>
    intro hb
    by_cases hy : le a y = true
    · simp only [ordInsert, hy, if_true]
      exact (List.singleton_sublist.mpr hb).cons₂ a
    · simp only [ordInsert, hy, if_false]
      rcases List.mem_cons.mp hb with rfl | hb'
      · exact absurd hab hy
      · exact (ih hb').cons y

theorem sublist_ordInsert {α : Type} (le : α → α → Bool) (x : α)
    (l : List α) : l.Sublist (ordInsert le x l) := by
  induction l with
  | nil => simp
  | cons y ys ih =>
    unfold ordInsert
    by_cases h : le x y = true
    · simp only [h, if_true]
      exact (List.Sublist.refl (y :: ys)).cons x
    · simp only [h, if_false]
      exact ih.cons₂ y

theorem isortBy_pair_stable {α : Type} (le : α → α → Bool) (a b : α)
    (hab : le a b = true) :
    ∀ (l : List α), [a, b].Sublist l → [a, b].Sublist (isortBy le l) := by
  intro l
  induction l with
  | nil =>
    intro h
    rw [List.sublist_nil] at h
    exact absurd h (by simp)
  | cons x xs ih =>
    intro h
    cases h with
    | cons _ h' =>
      exact ((ih h').trans (sublist_ordInsert le x (isortBy le xs)))
    | cons₂ _ h' =>
      have hb : b ∈ isortBy le xs := by
        rw [mem_isortBy]
        exact List.singleton_sublist.mp h'
      exact ordInsert_pair le a b hab (isortBy le xs) hb

theorem find?_name_nodup (l : List Column) (a : Column)
    (h : (l.map (·.name)).Nodup) (ha : a ∈ l) :
    l.find? (·.name == a.name) = some a := by
  induction l with
  | nil => simp at ha
  | cons c cs ih =>
    rw [List.find?_cons]
    rcases List.mem_cons.mp ha with rfl | ha'
    · simp
    · have hne : ¬ (c.name == a.name) = true := by
        simp only [beq_iff_eq]
        intro hcon
        have : a.name ∈ cs.map (·.name) := List.mem_map.mpr ⟨a, ha', rfl⟩
        rw [← hcon] at this
        exact (List.nodup_cons.mp (by simpa using h)).1 this
      simp only [hne, if_false]
      exact ih (List.nodup_cons.mp (by simpa using h)).2 ha'

theorem lookupCol_self (s : Schema) (a : Column)
    (hnodup : s.colNames.Nodup) (ha : a ∈ s.columns) :
    s.lookupCol a.name = some a :=
  find?_name_nodup s.columns a (by simpa [Schema.colNames] using hnodup) ha

theorem lookupCol_name (s : Schema) (n : String) (c : Column)
    (h : s.lookupCol n = some c) : c.name = n := by
  have := List.find?_some h
  simpa using this

theorem hasCol_lookup (s : Schema) (n : String) (h : s.hasCol n = true) :
    ∃ c, s.lookupCol n = some c := by
  unfold Schema.hasCol at h
  rw [List.any_eq_true] at h
  obtain ⟨c, hc, hcn⟩ := h
  have : (s.columns.find? (·.name == n)).isSome :=
    List.find?_isSome.mpr ⟨c, hc, hcn⟩
  exact Option.isSome_iff_exists.mp this

theorem filterMap_lookup_names (s : Schema) :
    ∀ (ns : List String), (∀ n ∈ ns, s.hasCol n = true) →
      (ns.filterMap s.lookupCol).map (·.name) = ns := by
  intro ns
  induction ns with
  | nil => intro _; rfl
  | cons n ms ih =>
    intro h
    obtain ⟨c, hc⟩ := hasCol_lookup s n (h n (List.mem_cons_self n ms))
    rw [List.filterMap_cons, hc]
    simp only [List.map_cons]
    rw [lookupCol_name s n c hc, ih (fun m hm => h m (List.mem_cons_of_mem n hm))]

/-- In the dependency graph, a column all of whose rules are non-extracted
and depend exactly on the missing column `bn` has `bn` as its only
successor. -/
theorem depGraph_succs_single (schema : Schema) (names : List String)
    (ctx : Bool) (a : Column) (bn : String)
    (ha : a ∈ schema.columns) (hnodup : schema.colNames.Nodup)
    (hrules : ∀ inf ∈ a.inferences,
      inf.type ≠ ColumnInferenceType.extracted ∧ inf.upstreamColumns = [bn])
    (hbn : bn ∈ names) :
    ∀ z ∈ succs (depGraphEdges schema names ctx) a.name, z = bn := by
  intro z hz
  unfold succs at hz
  rw [List.mem_filterMap] at hz
  obtain ⟨e, he, hez⟩ := hz
  by_cases h1 : (e.1 == a.name) = true
  · simp only [h1, if_true, Option.some.injEq] at hez
    unfold depGraphEdges at he
    rw [List.mem_flatMap] at he
    obtain ⟨c, hc, he2⟩ := he
    rw [List.mem_flatMap] at he2
    obtain ⟨inf, hinf, he3⟩ := he2
    have hfst : e.1 = c.name := by
      by_cases hb : (inf.type == ColumnInferenceType.extracted && ctx) = true
      · simp only [hb, if_true, List.mem_singleton] at he3
        rw [he3]
      · simp only [hb, Bool.false_eq_true, if_false] at he3
        rw [List.mem_map] at he3
        obtain ⟨d, _, hd⟩ := he3
        rw [← hd]
        split <;> rfl
    have hca : c = a := by
      apply List.inj_on_of_nodup_map (by simpa [Schema.colNames] using hnodup) hc ha
      rw [← hfst]
      exact eq_of_beq h1
    subst hca
    obtain ⟨hty, hup⟩ := hrules inf hinf
    have hb : (inf.type == ColumnInferenceType.extracted && ctx) = false := by
      rcases hcase : (inf.type == ColumnInferenceType.extracted) with _ | _
      · simp [hcase]
      · exact absurd (eq_of_beq hcase) hty
    simp only [hb, Bool.false_eq_true, if_false, hup, List.map_cons,
      List.map_nil] at he3
    have hbn' : names.contains bn = true := by simpa using hbn
    simp only [hbn', if_true, List.mem_singleton] at he3
    rw [← hez, he3]
  · simp [h1] at hez

theorem bfsGo_stuck (edges : List (String × String)) (target : String)
    (S : List String)
    (hS : ∀ n ∈ S, ∀ z ∈ succs edges n, z ∈ S) (ht : target ∉ S) :
    ∀ (fuel : Nat) (frontier visited : List String) (d : Nat),
      (∀ n ∈ frontier, n ∈ S) →
      bfsDistGo edges target fuel frontier visited d = none := by
  intro fuel
  induction fuel with
  | zero => intro frontier visited d _; rfl
  | succ f ih =>
    intro frontier visited d hf
    unfold bfsDistGo
    by_cases he : frontier.isEmpty = true
    · simp only [he, if_true]
    · have hnt : frontier.contains target = false := by
        rcases hcon : frontier.contains target with _ | _
        · rfl
        · exact absurd (ht (hf target (by simpa using hcon))) (by simp)
      simp only [he, Bool.false_eq_true, if_false, hnt]
      apply ih
      intro n hn
      have hn' := mem_of_mem_dedupFirst _ _ hn
      rw [List.mem_filter] at hn'
      have hn2 := hn'.1
      rw [List.mem_flatMap] at hn2
      obtain ⟨m, hm, hsucc⟩ := hn2
      exact hS m (hf m hm) n hsucc

theorem bfsDist_trapped (edges : List (String × String)) (a bn target : String)
    (hsa : ∀ z ∈ succs edges a, z = bn) (hsb : ∀ z ∈ succs edges bn, z = a)
    (hta : target ≠ a) (htb : target ≠ bn) :
    bfsDist edges a target = none := by
  unfold bfsDist
  apply bfsGo_stuck edges target [a, bn]
  · intro n hn z hz
    rcases List.mem_cons.mp hn with rfl | hn'
    · rw [hsa z hz]; simp
    · rw [List.mem_singleton] at hn'
      subst hn'
      rw [hsb z hz]; simp
  · intro hcon
    rcases List.mem_cons.mp hcon with rfl | h'
    · exact hta rfl
    · rw [List.mem_singleton] at h'
      exact htb h'
  · intro n hn
    rcases List.mem_singleton.mp hn with rfl
    simp

/-! ## C6: dependency cycles degrade gracefully -/

/-- C6: for a schema in which two missing columns depend on each other (all
of `a`'s rules are non-extracted and depend exactly on `b`, and vice
versa, neither otherwise available), the scheduler's ordering call returns
an ordering (a permutation of the set enumeration of the missing columns):
both cycle members get infinite distance (`none`) to the `<AVAILABLE>`
sink and are placed after every column whose distance is finite. -/
theorem C6_cycle_infinite_distance_last (schema : Schema) (missing : List Column)
    (ctx : Bool) (setOrder : List String) (a b : Column)
    (hmemA : a ∈ missing) (hmemB : b ∈ missing)
    (hinsA : a ∈ schema.columns) (hinsB : b ∈ schema.columns)
    (hnodup : schema.colNames.Nodup)
    (hmissSub : ∀ c ∈ missing, c ∈ schema.columns)
    (hso : ∀ x, x ∈ setOrder ↔ x ∈ missing.map (·.name))
    (havA : a.name ≠ availableNode) (havB : b.name ≠ availableNode)
    (hrulesA : a.inferences ≠ [] ∧ ∀ inf ∈ a.inferences,
      inf.type ≠ ColumnInferenceType.extracted ∧ inf.upstreamColumns = [b.name])
    (hrulesB : b.inferences ≠ [] ∧ ∀ inf ∈ b.inferences,
      inf.type ≠ ColumnInferenceType.extracted ∧ inf.upstreamColumns = [a.name]) :
    bfsDist (depGraphEdges schema (missing.map (·.name)) ctx) a.name availableNode = none
    ∧ bfsDist (depGraphEdges schema (missing.map (·.name)) ctx) b.name availableNode = none
    ∧ (∃ l1 l2, sortColumnsBasedOnDependencies schema missing ctx setOrder = l1 ++ l2
        ∧ (∀ c ∈ l1, bfsDist (depGraphEdges schema (missing.map (·.name)) ctx)
              c.name availableNode ≠ none)
        ∧ (∀ c ∈ l2, bfsDist (depGraphEdges schema (missing.map (·.name)) ctx)
              c.name availableNode = none)
        ∧ a ∈ l2 ∧ b ∈ l2)
    ∧ ((sortColumnsBasedOnDependencies schema missing ctx setOrder).map (·.name)).Perm
        setOrder := by
  have hbn : b.name ∈ missing.map (·.name) := List.mem_map.mpr ⟨b, hmemB, rfl⟩
  have han : a.name ∈ missing.map (·.name) := List.mem_map.mpr ⟨a, hmemA, rfl⟩
  have hsa : ∀ z ∈ succs (depGraphEdges schema (missing.map (·.name)) ctx)
      a.name, z = b.name :=
    depGraph_succs_single schema _ ctx a b.name hinsA hnodup hrulesA.2 hbn
  have hsb : ∀ z ∈ succs (depGraphEdges schema (missing.map (·.name)) ctx)
      b.name, z = a.name :=
    depGraph_succs_single schema _ ctx b a.name hinsB hnodup hrulesB.2 han
  have hda : bfsDist (depGraphEdges schema (missing.map (·.name)) ctx)
      a.name availableNode = none :=
    bfsDist_trapped _ a.name b.name availableNode hsa hsb
      (fun hcon => havA hcon.symm) (fun hcon => havB hcon.symm)
  have hdb : bfsDist (depGraphEdges schema (missing.map (·.name)) ctx)
      b.name availableNode = none :=
    bfsDist_trapped _ b.name a.name availableNode hsb hsa
      (fun hcon => havB hcon.symm) (fun hcon => havA hcon.symm)
  have hallCols : ∀ n ∈ setOrder, schema.hasCol n = true := by
    intro n hn
    rw [hso] at hn
    rw [List.mem_map] at hn
    obtain ⟨c, hc, rfl⟩ := hn
    unfold Schema.hasCol
    rw [List.any_eq_true]
    exact ⟨c, hmissSub c hc, by simp⟩
  obtain ⟨l1n, l2n, hsplit, h1, h2⟩ :=
    isort_key_split
      (fun n => bfsDist (depGraphEdges schema (missing.map (·.name)) ctx)
        n availableNode) setOrder
  simp only [] at hsplit
  have hkey : sortColumnsBasedOnDependencies schema missing ctx setOrder
      = List.filterMap schema.lookupCol
          (isortBy (fun x y => optLe
              (bfsDist (depGraphEdges schema (missing.map (·.name)) ctx)
                x availableNode)
              (bfsDist (depGraphEdges schema (missing.map (·.name)) ctx)
                y availableNode))
            setOrder) := rfl
  have hresult : sortColumnsBasedOnDependencies schema missing ctx setOrder
      = l1n.filterMap schema.lookupCol ++ l2n.filterMap schema.lookupCol := by
    rw [hkey, hsplit, List.filterMap_append]
  have hperm : ((sortColumnsBasedOnDependencies schema missing ctx
      setOrder).map (·.name)).Perm setOrder := by
    rw [hkey]
    rw [filterMap_lookup_names schema _ (fun n hn => hallCols n
      ((mem_isortBy _ _ _).mp hn))]
    exact isortBy_perm _ setOrder
  refine ⟨hda, hdb, ⟨l1n.filterMap schema.lookupCol, l2n.filterMap schema.lookupCol,
    hresult, ?_, ?_, ?_, ?_⟩, hperm⟩
  · intro c hc
    rw [List.mem_filterMap] at hc
    obtain ⟨n, hn, hlook⟩ := hc
    rw [lookupCol_name schema n c hlook]
    exact h1 n hn
  · intro c hc
    rw [List.mem_filterMap] at hc
    obtain ⟨n, hn, hlook⟩ := hc
    rw [lookupCol_name schema n c hlook]
    exact h2 n hn
  · rw [List.mem_filterMap]
    refine ⟨a.name, ?_, lookupCol_self schema a hnodup hinsA⟩
    have hin : a.name ∈ l1n ++ l2n := by
      rw [← hsplit]
      rw [mem_isortBy, hso]
      exact han
    rcases List.mem_append.mp hin with h' | h'
    · exact absurd hda (h1 a.name h')
    · exact h'
  · rw [List.mem_filterMap]
    refine ⟨b.name, ?_, lookupCol_self schema b hnodup hinsB⟩
    have hin : b.name ∈ l1n ++ l2n := by
      rw [← hsplit]
      rw [mem_isortBy, hso]
      exact hbn
    rcases List.mem_append.mp hin with h' | h'
    · exact absurd hdb (h1 b.name h')
    · exact h'

theorem C6_cycle_infinite_distance_last_witness :
    bfsDist (depGraphEdges wSchemaCyc ["cycA", "cycB"] false) "cycA" availableNode = none
    ∧ bfsDist (depGraphEdges wSchemaCyc ["cycA", "cycB"] false) "cycB" availableNode = none
    ∧ (∃ l1 l2,
        sortColumnsBasedOnDependencies wSchemaCyc [wColCycA, wColCycB] false ["cycA", "cycB"]
          = l1 ++ l2
        ∧ (∀ c ∈ l1, bfsDist (depGraphEdges wSchemaCyc ["cycA", "cycB"] false)
              c.name availableNode ≠ none)
        ∧ (∀ c ∈ l2, bfsDist (depGraphEdges wSchemaCyc ["cycA", "cycB"] false)
              c.name availableNode = none)
        ∧ wColCycA ∈ l2 ∧ wColCycB ∈ l2)
    ∧ ((sortColumnsBasedOnDependencies wSchemaCyc [wColCycA, wColCycB] false
        ["cycA", "cycB"]).map (·.name)).Perm ["cycA", "cycB"] := by
  have hrA : wColCycA.inferences ≠ [] ∧ ∀ inf ∈ wColCycA.inferences,
      inf.type ≠ ColumnInferenceType.extracted
      ∧ inf.upstreamColumns = ["cycB"] := by
    refine ⟨by simp [wColCycA], ?_⟩
    intro inf hinf
    simp only [wColCycA, List.mem_singleton] at hinf
    subst hinf
    exact ⟨by simp [wInfDependsOn, ColumnInference.whenHasColumns],
           by simp [wInfDependsOn, ColumnInference.whenHasColumns]⟩
  have hrB : wColCycB.inferences ≠ [] ∧ ∀ inf ∈ wColCycB.inferences,
      inf.type ≠ ColumnInferenceType.extracted
      ∧ inf.upstreamColumns = ["cycA"] := by
    refine ⟨by simp [wColCycB], ?_⟩
    intro inf hinf
    simp only [wColCycB, List.mem_singleton] at hinf
    subst hinf
    exact ⟨by simp [wInfDependsOn, ColumnInference.whenHasColumns],
           by simp [wInfDependsOn, ColumnInference.whenHasColumns]⟩
  have h := C6_cycle_infinite_distance_last wSchemaCyc [wColCycA, wColCycB] false
    ["cycA", "cycB"] wColCycA wColCycB
    (List.mem_cons_self _ _)
    (List.mem_cons_of_mem _ (List.mem_cons_self _ _))
    (List.mem_cons_self _ _)
    (List.mem_cons_of_mem _ (List.mem_cons_self _ _))
    (by simp [Schema.colNames, wSchemaCyc, wColCycA, wColCycB])
    (fun c hc => hc)
    (by intro x; simp [wColCycA, wColCycB])
    (by simp [wColCycA, availableNode]) (by simp [wColCycB, availableNode])
    hrA hrB
  exact h

/-! ## C7: tie-breaking among equal distances -/

/-- C7 counterexample: two missing columns `a` and `b`, declared in schema
order `[a, b]`, with equal (infinite) distances to the sink; with the set
enumeration `["b", "a"]` (a legitimate iteration order of the Python set
`{"a", "b"}`), the scheduler returns them in the order `[b, a]` — not in
schema declaration order. -/
theorem C7_counterexample :
    (sortColumnsBasedOnDependencies wSchemaTie [wColTieA, wColTieB] false
        ["b", "a"]).map (·.name) = ["b", "a"]
    ∧ wSchemaTie.colNames = ["a", "b"]
    ∧ bfsDist (depGraphEdges wSchemaTie (["a", "b"]) false) "a" availableNode
      = bfsDist (depGraphEdges wSchemaTie (["a", "b"]) false) "b" availableNode := by
  exact ⟨rfl, rfl, rfl⟩

/-- C7 (amended): for two missing columns with equal shortest-path distance
to the sink, the scheduler returns them in the relative order given by the
iteration order of the Python set `missing_column_names` — which is
unspecified — not necessarily in schema declaration order (the sort is
stable with respect to that enumeration). -/
theorem C7_ties_follow_set_enumeration (schema : Schema) (missing : List Column)
    (ctx : Bool) (setOrder : List String) (na nb : String) (ca cb : Column)
    (hsub : [na, nb].Sublist setOrder)
    (heq : bfsDist (depGraphEdges schema (missing.map (·.name)) ctx) na availableNode
         = bfsDist (depGraphEdges schema (missing.map (·.name)) ctx) nb availableNode)
    (hla : schema.lookupCol na = some ca) (hlb : schema.lookupCol nb = some cb) :
    [ca, cb].Sublist (sortColumnsBasedOnDependencies schema missing ctx setOrder) := by
  have hkey : sortColumnsBasedOnDependencies schema missing ctx setOrder
      = List.filterMap schema.lookupCol
          (isortBy (fun x y => optLe
              (bfsDist (depGraphEdges schema (missing.map (·.name)) ctx)
                x availableNode)
              (bfsDist (depGraphEdges schema (missing.map (·.name)) ctx)
                y availableNode))
            setOrder) := rfl
  rw [hkey]
  have hstable := isortBy_pair_stable
    (fun x y => optLe
      (bfsDist (depGraphEdges schema (missing.map (·.name)) ctx) x availableNode)
      (bfsDist (depGraphEdges schema (missing.map (·.name)) ctx) y availableNode))
    na nb (by simp only []; rw [heq]; exact optLe_refl _) setOrder hsub
  have := hstable.filterMap schema.lookupCol
  rw [List.filterMap_cons, List.filterMap_cons, List.filterMap_nil, hla, hlb] at this
  exact this

theorem C7_ties_follow_set_enumeration_witness :
    [wColTieA, wColTieB].Sublist
      (sortColumnsBasedOnDependencies wSchemaTie [wColTieA, wColTieB] false
        ["a", "b"]) :=
  C7_ties_follow_set_enumeration wSchemaTie [wColTieA, wColTieB] false
    ["a", "b"] "a" "b" wColTieA wColTieB
    (List.Sublist.refl _) rfl rfl rfl

/-! ## C2: missing-required-column failure and default fallback -/

theorem inferFold_nil (env : AlignEnv) (ctx : List String) (fp : String)
    (st : DataFrame × LoggingSession) : inferFold env ctx fp st [] = .ok st := rfl

theorem inferFold_cons (env : AlignEnv) (ctx : List String) (fp : String)
    (st : DataFrame × LoggingSession) (c : Column) (cs : List Column) :
    inferFold env ctx fp st (c :: cs)
      = (inferStep env ctx fp st c).bind
          (fun st' => inferFold env ctx fp st' cs) := rfl

theorem inferFold_append (env : AlignEnv) (ctx : List String) (fp : String) :
    ∀ (l1 l2 : List Column) (st : DataFrame × LoggingSession),
      inferFold env ctx fp st (l1 ++ l2)
        = (inferFold env ctx fp st l1).bind
            (fun st' => inferFold env ctx fp st' l2) := by
  intro l1
  induction l1 with
  | nil => intro l2 st; rfl
  | cons c cs ih =>
    intro l2 st
    rw [List.cons_append, inferFold_cons, inferFold_cons]
    cases h : inferStep env ctx fp st c with
    | error e => rfl
    | ok st' =>
      show inferFold env ctx fp st' (cs ++ l2) = _
      rw [ih]
      rfl

/-- C2: when, during alignment, a missing schema column is reached whose
inference-rule guards all fail: if the column is required, non-nullable and
has no default, `align_dataframe_to_schema` fails with the
missing-required-column error (the source's `ValueError`, named
`MissingRequiredColumnError` by the spec) and assigns nothing; otherwise
the column is set to its default value (null when none is declared) and a
set-default decision is logged, and alignment continues. -/
theorem C2_no_rule_matches (env : AlignEnv) (df : DataFrame) (schema : Schema)
    (context : List String) (filePath : String) (log0 : LoggingSession)
    (mapping : List (String × String)) (missing : List Column)
    (log1 : LoggingSession) (pre post : List Column) (c : Column)
    (df' : DataFrame) (log' : LoggingSession)
    (hphase1 : alignPhase1 env df schema log0 = (mapping, missing, log1))
    (hsort : sortColumnsBasedOnDependencies schema missing (!context.isEmpty)
               (env.setEnum (missing.map (·.name))) = pre ++ c :: post)
    (hpre : inferFold env context filePath (dfRename df mapping, log1) pre
              = .ok (df', log'))
    (hng : ∀ inf ∈ c.inferences,
      inf.condition ⟨df', env.llm, context, filePath⟩ = false) :
    ((c.required && !c.nullable && c.default.isNone) = true →
      alignDataframeToSchema env df schema context filePath log0
        = .error (.missingRequiredColumn c.name))
    ∧ ((c.required && !c.nullable && c.default.isNone) = false →
      inferFold env context filePath (dfRename df mapping, log1)
          (pre ++ c :: post)
        = inferFold env context filePath
            (dfAssign df' c.name (List.replicate df'.nRows (c.default.getD .null)),
             log'.logColumnAlignmentOp c.name (.setValue c.default)) post) := by
  have hfind : c.inferences.find?
      (fun inf => inf.condition ⟨df', env.llm, context, filePath⟩) = none :=
    List.find?_eq_none.mpr (fun inf hinf => by rw [hng inf hinf]; simp)
  constructor
  · intro hreq
    have hstep : inferStep env context filePath (df', log') c
        = .error (.missingRequiredColumn c.name) := by
      simp only [inferStep, hfind, hreq, if_true]
    have hloop : inferFold env context filePath (dfRename df mapping, log1)
        (pre ++ c :: post) = .error (.missingRequiredColumn c.name) := by
      rw [inferFold_append, hpre]
      show inferFold env context filePath (df', log') (c :: post) = _
      rw [inferFold_cons, hstep]
      rfl
    unfold alignDataframeToSchema
    rw [hphase1]
    simp only []
    rw [hsort, hloop]
    rfl
  · intro hreq
    have hstep : inferStep env context filePath (df', log') c
        = .ok (dfAssign df' c.name
                 (List.replicate df'.nRows (c.default.getD .null)),
               log'.logColumnAlignmentOp c.name (.setValue c.default)) := by
      simp only [inferStep, hfind]
      rw [if_neg (by simp [hreq])]
    rw [inferFold_append, hpre]
    show inferFold env context filePath (df', log') (c :: post) = _
    rw [inferFold_cons, hstep]
    rfl

theorem C2_no_rule_matches_witness :
    ((({ name := "a", dtype := DType.str } : Column).required
        && !({ name := "a", dtype := DType.str } : Column).nullable
        && ({ name := "a", dtype := DType.str } : Column).default.isNone) = true →
      alignDataframeToSchema wEnvBlank wDfX wSchemaA [] "" ⟨none⟩
        = .error (.missingRequiredColumn "a"))
    ∧ ((({ name := "a", dtype := DType.str } : Column).required
        && !({ name := "a", dtype := DType.str } : Column).nullable
        && ({ name := "a", dtype := DType.str } : Column).default.isNone) = false →
      inferFold wEnvBlank [] "" (dfRename wDfX [], ⟨none⟩)
          ([] ++ ({ name := "a", dtype := DType.str } : Column) :: [])
        = inferFold wEnvBlank [] ""
            (dfAssign wDfX "a" (List.replicate wDfX.nRows
              ((({ name := "a", dtype := DType.str } : Column).default).getD .null)),
             LoggingSession.logColumnAlignmentOp ⟨none⟩ "a"
               (.setValue ({ name := "a", dtype := DType.str } : Column).default)) []) :=
  C2_no_rule_matches wEnvBlank wDfX wSchemaA [] "" ⟨none⟩
    [] [{ name := "a", dtype := DType.str }] ⟨none⟩
    [] [] { name := "a", dtype := DType.str } wDfX ⟨none⟩
    rfl rfl rfl (fun inf hinf => by simp at hinf)

/-! ## C1: column set and validation of successful alignments -/

theorem except_bind_ok {ε α β : Type} (x : Except ε α) (f : α → Except ε β)
    (b : β) (h : x.bind f = .ok b) : ∃ a, x = .ok a ∧ f a = .ok b := by
  cases x with
  | error e => simp [Except.bind] at h
  | ok a => exact ⟨a, rfl, h⟩

theorem except_map_ok {ε α β : Type} (x : Except ε α) (f : α → β)
    (b : β) (h : x.map f = .ok b) : ∃ a, x = .ok a ∧ f a = b := by
  cases x with
  | error e => simp [Except.map] at h
  | ok a =>
    refine ⟨a, rfl, ?_⟩
    simpa [Except.map] using h

theorem coerceValue_types (t : DType) (v v' : Value)
    (h : coerceValue t v = some v') : typeMatchesB t v' = true := by
  cases t with
  | str =>
    cases v <;> simp [coerceValue] at h <;> subst h <;> rfl
  | int =>
    cases v with
    | null => simp [coerceValue] at h; subst h; rfl
    | int n => simp [coerceValue] at h; subst h; rfl
    | float q => simp [coerceValue] at h; subst h; rfl
    | str s =>
      simp only [coerceValue, Option.map_eq_some'] at h
      obtain ⟨n, _, hn⟩ := h
      subst hn
      rfl
  | float =>
    cases v with
    | null => simp [coerceValue] at h; subst h; rfl
    | int n => simp [coerceValue] at h; subst h; rfl
    | float q => simp [coerceValue] at h; subst h; rfl
    | str s =>
      simp only [coerceValue, Option.map_eq_some'] at h
      obtain ⟨n, _, hn⟩ := h
      subst hn
      rfl
  | entity norm =>
    cases v <;> simp [coerceValue] at h
    subst h
    rfl

theorem mapOption_mem {α β : Type} (f : α → Option β) :
    ∀ (l : List α) (l' : List β), mapOption f l = some l' →
      ∀ b ∈ l', ∃ a ∈ l, f a = some b := by
  intro l
  induction l with
  | nil =>
    intro l' h b hb
    simp [mapOption] at h
    subst h
    simp at hb
  | cons a as ih =>
    intro l' h b hb
    unfold mapOption at h
    cases hfa : f a with
    | none => rw [hfa] at h; simp at h
    | some b0 =>
      rw [hfa] at h
      simp only [Option.map_eq_some'] at h
      obtain ⟨bs, hbs, hcons⟩ := h
      subst hcons
      rcases List.mem_cons.mp hb with rfl | hb'
      · exact ⟨a, List.mem_cons_self a as, hfa⟩
      · obtain ⟨a', ha', hfa'⟩ := ih bs hbs b hb'
        exact ⟨a', List.mem_cons_of_mem a ha', hfa'⟩

theorem coercePrim_ok (t : DType) (n : String) (vs vs' : List Value)
    (h : coercePrim t n vs = .ok vs') :
    ∀ v ∈ vs', typeMatchesB t v = true := by
  intro v hv
  unfold coercePrim at h
  cases hm : mapOption (coerceValue t) vs with
  | none => rw [hm] at h; simp at h
  | some u =>
    rw [hm] at h
    have hu : u = vs' := by
      injection h with h'
    subst hu
    obtain ⟨a, _, hfa⟩ := mapOption_mem (coerceValue t) vs u hm v hv
    exact coerceValue_types t a v hfa

theorem coerceColumn_ok (c : Column) (n : String) (vs : List Value)
    (log : LoggingSession) (vs' : List Value) (log' : LoggingSession)
    (h : coerceColumn c n vs log = .ok (vs', log')) :
    ∀ v ∈ vs', typeMatchesB c.dtype v = true := by
  intro v hv
  unfold coerceColumn at h
  cases hdt : c.dtype with
  | entity norm =>
    rw [hdt] at h
    simp only [] at h
    by_cases hg : isStrDtype vs = true
    · rw [if_pos hg] at h
      obtain ⟨r, _, hf⟩ := except_map_ok _ _ _ h
      have hvs' : vs' = r.1.map (fun o => match o with
          | some s => Value.str s
          | none => Value.null) := by
        have := congrArg Prod.fst hf
        simpa using this.symm
      rw [hvs'] at hv
      rw [List.mem_map] at hv
      obtain ⟨o, _, ho⟩ := hv
      rw [← ho]
      cases o <;> rfl
    · rw [if_neg hg] at h
      simp at h
  | str =>
    rw [hdt] at h
    simp only [] at h
    obtain ⟨u, hcp, hf⟩ := except_map_ok _ _ _ h
    have : u = vs' := by
      have := congrArg Prod.fst hf
      simpa using this
    subst this
    exact coercePrim_ok _ n vs _ hcp v hv
  | int =>
    rw [hdt] at h
    simp only [] at h
    obtain ⟨u, hcp, hf⟩ := except_map_ok _ _ _ h
    have : u = vs' := by
      have := congrArg Prod.fst hf
      simpa using this
    subst this
    exact coercePrim_ok _ n vs _ hcp v hv
  | float =>
    rw [hdt] at h
    simp only [] at h
    obtain ⟨u, hcp, hf⟩ := except_map_ok _ _ _ h
    have : u = vs' := by
      have := congrArg Prod.fst hf
      simpa using this
    subst this
    exact coercePrim_ok _ n vs _ hcp v hv

theorem validateColumn_ok (c : Column) (n : String) (vs vs' : List Value)
    (log log' : LoggingSession)
    (h : validateColumn c n vs log = .ok (vs', log')) :
    (∀ v ∈ vs', typeMatchesB c.dtype v = true)
    ∧ (c.nullable = false →
        vs'.any (fun v => decide (v = Value.null)) = false) := by
  unfold validateColumn at h
  simp only [] at h
  obtain ⟨r, hco, hif⟩ := except_bind_ok _ _ _ h
  by_cases hcond :
      (!c.nullable && r.1.any (fun v => decide (v = Value.null))) = true
  · rw [if_pos hcond] at hif
    simp at hif
  · rw [if_neg hcond] at hif
    have hr : r = (vs', log') := by
      injection hif
    subst hr
    constructor
    · exact coerceColumn_ok c n _ log vs' log' hco
    · intro hnul
      rw [hnul] at hcond
      simp at hcond
      cases hany : vs'.any (fun v => decide (v = Value.null)) with
      | false => rfl
      | true =>
        obtain ⟨v, hv, hdec⟩ := List.any_eq_true.mp hany
        rw [decide_eq_true_eq] at hdec
        subst hdec
        exact absurd hv hcond

theorem validateFold_ok (schema : Schema) :
    ∀ (l acc : List (String × List Value)) (log : LoggingSession)
      (res : List (String × List Value)) (log' : LoggingSession),
      (∀ p ∈ l, schema.hasCol p.1 = true) →
      l.foldlM (validateStep schema) (acc, log) = .ok (res, log') →
      ∃ tail, res = acc ++ tail
        ∧ tail.map (·.1) = l.map (·.1)
        ∧ ∀ p ∈ tail, ∃ c, schema.lookupCol p.1 = some c
            ∧ (∀ v ∈ p.2, typeMatchesB c.dtype v = true)
            ∧ (c.nullable = false →
                p.2.any (fun v => decide (v = Value.null)) = false) := by
  intro l
  induction l with
  | nil =>
    intro acc log res log' _ h
    have hpair : (acc, log) = (res, log') := by
      simpa [List.foldlM, pure, Except.pure] using h
    have hacc : acc = res := congrArg Prod.fst hpair
    refine ⟨[], by rw [← hacc]; simp, rfl, by simp⟩
  | cons p ps ih =>
    intro acc log res log' hhas h
    rw [show (p :: ps).foldlM (validateStep schema) (acc, log)
        = (validateStep schema (acc, log) p).bind
            (fun st => ps.foldlM (validateStep schema) st) from rfl] at h
    obtain ⟨st1, hstep, hrest⟩ := except_bind_ok _ _ _ h
    obtain ⟨c0, hc0⟩ := hasCol_lookup schema p.1 (hhas p (List.mem_cons_self p ps))
    unfold validateStep at hstep
    rw [hc0] at hstep
    simp only [] at hstep
    obtain ⟨r, hvc, hf⟩ := except_map_ok _ _ _ hstep
    subst hf
    obtain ⟨tail, htail, hnames, hprops⟩ :=
      ih (acc ++ [(p.1, r.1)]) r.2 res log'
        (fun q hq => hhas q (List.mem_cons_of_mem p hq)) hrest
    refine ⟨(p.1, r.1) :: tail, by rw [htail]; simp, by simp [hnames], ?_⟩
    intro q hq
    rcases List.mem_cons.mp hq with rfl | hq'
    · have hok := validateColumn_ok c0 p.1 _ r.1 log r.2 (by
        rw [hvc])
      exact ⟨c0, hc0, hok.1, hok.2⟩
    · exact hprops q hq'

theorem validateSchema_ok (schema : Schema) (df : DataFrame)
    (log : LoggingSession) (out : DataFrame) (log' : LoggingSession)
    (h : validateSchema schema df log = .ok (out, log')) :
    out.names = (df.cols.filter (fun p => schema.hasCol p.1)).map (·.1)
    ∧ validatedB schema out = true
    ∧ (∀ c ∈ schema.columns, c.required = true → c.name ∈ out.names) := by
  unfold validateSchema at h
  simp only [] at h
  cases hfind : schema.columns.find?
      (fun c => c.required && !(df.names.contains c.name)) with
  | some c => rw [hfind] at h; simp at h
  | none =>
    rw [hfind] at h
    obtain ⟨r, hfold, hmap⟩ := except_map_ok _ _ _ h
    have hout : out = ⟨r.1⟩ := by
      have := congrArg Prod.fst hmap
      simpa using this.symm
    obtain ⟨tail, htail, hnames, hprops⟩ :=
      validateFold_ok schema (df.cols.filter (fun p => schema.hasCol p.1))
        [] log r.1 r.2
        (fun p hp => (List.mem_filter.mp hp).2) hfold
    rw [List.nil_append] at htail
    have hnamesOut : out.names
        = (df.cols.filter (fun p => schema.hasCol p.1)).map (·.1) := by
      rw [hout]
      show r.1.map (·.1) = _
      rw [htail, hnames]
    refine ⟨hnamesOut, ?_, ?_⟩
    · rw [hout]
      unfold validatedB
      rw [List.all_eq_true]
      intro p hp
      have hp' : p ∈ tail := by
        have : (⟨r.1⟩ : DataFrame).cols = tail := by
          show r.1 = tail
          exact htail
        rw [this] at hp
        exact hp
      obtain ⟨c, hc, htypes, hnulls⟩ := hprops p hp'
      rw [hc]
      simp only [Bool.and_eq_true]
      constructor
      · rw [List.all_eq_true]
        exact htypes
      · cases hnl : c.nullable with
        | true => simp
        | false =>
          simp only [Bool.false_or]
          rw [List.all_eq_true]
          intro v hv
          have hany := hnulls hnl
          cases hveq : (v == Value.null) with
          | false => rfl
          | true =>
            have hvnull : v = Value.null := eq_of_beq hveq
            have hcontra : p.2.any (fun x => decide (x = Value.null)) = true :=
              List.any_eq_true.mpr ⟨v, hv, by rw [decide_eq_true_eq]; exact hvnull⟩
            rw [hcontra] at hany
            exact absurd hany (by simp)
    · intro c hc hreq
      have hnf := List.find?_eq_none.mp hfind c hc
      have hcont : df.names.contains c.name = true := by
        cases hcase : df.names.contains c.name with
        | true => rfl
        | false => exact absurd (by rw [hreq, hcase]; rfl) hnf
      have hmem : c.name ∈ df.names := by simpa using hcont
      rw [DataFrame.names, List.mem_map] at hmem
      obtain ⟨p, hp, hpn⟩ := hmem
      have hhc : schema.hasCol p.1 = true := by
        rw [hpn]
        unfold Schema.hasCol
        rw [List.any_eq_true]
        exact ⟨c, hc, by simp⟩
      rw [hnamesOut, List.mem_map]
      exact ⟨p, List.mem_filter.mpr ⟨hp, hhc⟩, hpn⟩

/-- C1 (amended): whenever `align_dataframe_to_schema` returns a dataframe,
every column of the result is a schema column (extra source columns were
filtered out by validation), every required schema column is present, and
the result satisfies the schema's type and nullability constraints; for
schemas whose columns are all required (the pandera default) the column
set is therefore exactly the schema's columns.  (The original claim's
precondition is insufficient: a required column present directly under its
own exact name does not guarantee success, because direct-name recognition
is delegated to the LLM matcher — see the counterexample.) -/
theorem C1_success_columns_validated (env : AlignEnv) (df : DataFrame)
    (schema : Schema) (context : List String) (filePath : String)
    (log : LoggingSession) (out : DataFrame) (log' : LoggingSession)
    (halign : alignDataframeToSchema env df schema context filePath log
      = .ok (out, log')) :
    (∀ n ∈ out.names, n ∈ schema.colNames)
    ∧ (∀ c ∈ schema.columns, c.required = true → c.name ∈ out.names)
    ∧ validatedB schema out = true
    ∧ ((∀ c ∈ schema.columns, c.required = true) →
        ∀ n, n ∈ out.names ↔ n ∈ schema.colNames) := by
  unfold alignDataframeToSchema at halign
  simp only [] at halign
  obtain ⟨st, _, hval⟩ := except_bind_ok _ _ _ halign
  obtain ⟨hnames, hvalid, hreq⟩ :=
    validateSchema_ok schema st.1 st.2 out log' hval
  have h1 : ∀ n ∈ out.names, n ∈ schema.colNames := by
    intro n hn
    rw [hnames, List.mem_map] at hn
    obtain ⟨p, hp, hpn⟩ := hn
    have := (List.mem_filter.mp hp).2
    unfold Schema.hasCol at this
    rw [List.any_eq_true] at this
    obtain ⟨c, hc, hcn⟩ := this
    rw [← hpn]
    unfold Schema.colNames
    rw [List.mem_map]
    exact ⟨c, hc, eq_of_beq hcn⟩
  refine ⟨h1, hreq, hvalid, ?_⟩
  intro hallreq n
  constructor
  · exact h1 n
  · intro hn
    unfold Schema.colNames at hn
    rw [List.mem_map] at hn
    obtain ⟨c, hc, hcn⟩ := hn
    rw [← hcn]
    exact hreq c hc (hallreq c hc)

/-- C1 counterexample: the dataframe contains the required column `"a"`
directly under its exact name, but (the column declaring no aliases and
the LLM matcher answering with no match) alignment fails instead of
returning a validated dataframe. -/
theorem C1_counterexample :
    alignDataframeToSchema wEnvBlank wDfA wSchemaA [] "" ⟨none⟩
      = .error (.missingRequiredColumn "a")
    ∧ "a" ∈ wDfA.names := by
  exact ⟨rfl, by decide⟩

theorem C1_success_columns_validated_witness :
    (∀ n ∈ (DataFrame.mk [("b", [Value.str "v"])]).names, n ∈ wSchemaB.colNames)
    ∧ (∀ c ∈ wSchemaB.columns, c.required = true →
        c.name ∈ (DataFrame.mk [("b", [Value.str "v"])]).names)
    ∧ validatedB wSchemaB ⟨[("b", [Value.str "v"])]⟩ = true
    ∧ ((∀ c ∈ wSchemaB.columns, c.required = true) →
        ∀ n, n ∈ (DataFrame.mk [("b", [Value.str "v"])]).names
          ↔ n ∈ wSchemaB.colNames) :=
  C1_success_columns_validated wEnvBlank wDfB wSchemaB [] "" ⟨none⟩
    ⟨[("b", [Value.str "v"])]⟩ ⟨none⟩ rfl

/-! ## C9: aligning an already-aligned dataframe -/

theorem hasAlignmentFor_ident (ns : List String) (cn : String) (h : cn ∉ ns) :
    hasAlignmentFor (ns.map identRenameDecision) cn = false := by
  unfold hasAlignmentFor
  cases hcase : (ns.map identRenameDecision).any
      (fun d => match d.content with
        | .alignment a => a.columnName == cn
        | _ => false) with
  | false => rfl
  | true =>
    obtain ⟨d, hd, hpred⟩ := List.any_eq_true.mp hcase
    rw [List.mem_map] at hd
    obtain ⟨n, hn, rfl⟩ := hd
    simp only [identRenameDecision] at hpred
    rw [beq_iff_eq] at hpred
    exact absurd (hpred ▸ hn) h

theorem dictInsert_fresh {α : Type} (l : List (String × α)) (k : String)
    (v : α) (h : ∀ p ∈ l, p.1 ≠ k) : dictInsert l k v = l ++ [(k, v)] := by
  unfold dictInsert
  rw [if_neg]
  intro hcon
  obtain ⟨p, hp, hpk⟩ := List.any_eq_true.mp hcon
  exact h p hp (eq_of_beq hpk)

theorem logColAlign_ident (nd : LoggedNode) (ns : List String) (cn : String)
    (h : cn ∉ ns) :
    LoggingSession.logColumnAlignmentOp
      ⟨some { nd with data := { nd.data with
        decisions := ns.map identRenameDecision } }⟩
      cn (.rename cn cn)
    = ⟨some { nd with data := { nd.data with
        decisions := (ns ++ [cn]).map identRenameDecision } }⟩ := by
  unfold LoggingSession.logColumnAlignmentOp
  simp only []
  rw [hasAlignmentFor_ident ns cn h]
  simp only [Bool.false_eq_true, if_false]
  unfold LoggingSession.logDecision
  simp only [List.map_append, List.map_cons, List.map_nil]
  rfl

theorem phase1_ident_fold (env : AlignEnv) (df : DataFrame) (nd : LoggedNode) :
    ∀ (cols : List Column) (done : List String),
      (∀ c ∈ cols, aliasHit c df = some c.name
        ∨ (aliasHit c df = none ∧ getColumnName df c env.llm = some c.name)) →
      (done ++ cols.map (·.name)).Nodup →
      cols.foldl (phase1Step env df)
        (done.map (fun n => (n, n)), [],
         ⟨some { nd with data := { nd.data with
           decisions := done.map identRenameDecision } }⟩)
      = ((done ++ cols.map (·.name)).map (fun n => (n, n)), [],
         ⟨some { nd with data := { nd.data with
           decisions := (done ++ cols.map (·.name)).map identRenameDecision } }⟩) := by
  intro cols
  induction cols with
  | nil =>
    intro done _ _
    simp
  | cons c cs ih =>
    intro done hmatch hnodup
    have hfresh : c.name ∉ done := by
      intro hcon
      exact (List.nodup_append.mp hnodup).2.2 hcon (by simp)
    have hdiag : ∀ p ∈ done.map (fun n => (n, n)), Prod.fst p ≠ c.name := by
      intro p hp
      rw [List.mem_map] at hp
      obtain ⟨n, hn, rfl⟩ := hp
      intro hcon
      exact hfresh (hcon ▸ hn)
    have hstep : phase1Step env df
        (done.map (fun n => (n, n)), [],
         ⟨some { nd with data := { nd.data with
           decisions := done.map identRenameDecision } }⟩) c
      = ((done ++ [c.name]).map (fun n => (n, n)), [],
         ⟨some { nd with data := { nd.data with
           decisions := (done ++ [c.name]).map identRenameDecision } }⟩) := by
      unfold phase1Step
      rcases hmatch c (List.mem_cons_self c cs) with halias | ⟨halias, hllm⟩
      · rw [halias]
        simp only []
        rw [dictInsert_fresh _ _ _ hdiag, logColAlign_ident nd done c.name hfresh]
        simp only [List.map_append, List.map_cons, List.map_nil]
      · rw [halias]
        simp only []
        rw [hllm]
        simp only []
        rw [dictInsert_fresh _ _ _ hdiag, logColAlign_ident nd done c.name hfresh]
        simp only [List.map_append, List.map_cons, List.map_nil]
    rw [List.foldl_cons, hstep]
    have hrec := ih (done ++ [c.name])
      (fun c' hc' => hmatch c' (List.mem_cons_of_mem c hc'))
      (by
        rw [List.append_assoc]
        simpa using hnodup)
    rw [hrec]
    simp [List.append_assoc]

theorem dfRename_diag (df : DataFrame) (ns : List String) :
    dfRename df (ns.map (fun n => (n, n))) = df := by
  unfold dfRename
  have h : df.cols.map
      (fun p => ((dictGet (ns.map (fun n => (n, n))) p.1).getD p.1, p.2))
      = df.cols.map (fun p => p) := by
    apply List.map_congr_left
    intro p _
    rw [dictGet_diag]
  rw [h, List.map_id']

/-- C9 (amended): aligning a dataframe in which every schema column is
recognized under its own name (by alias or by the LLM matcher) starting
from a fresh logging node records exactly one identity rename decision per
schema column — no inference and no set-default decisions — and passes the
dataframe unchanged into schema validation.  (The original claim that *no*
rename decisions are recorded is refuted by the counterexample: the source
logs a rename decision even when the matched name equals the target
name.) -/
theorem C9_identity_renames_only (env : AlignEnv) (df : DataFrame)
    (schema : Schema) (context : List String) (filePath : String)
    (nd : LoggedNode)
    (hnodup : schema.colNames.Nodup)
    (hds : nd.data.decisions = [])
    (hmatch : ∀ c ∈ schema.columns, aliasHit c df = some c.name
      ∨ (aliasHit c df = none ∧ getColumnName df c env.llm = some c.name))
    (henum : env.setEnum [] = []) :
    alignDataframeToSchema env df schema context filePath ⟨some nd⟩
      = validateSchema schema df
          ⟨some { nd with data := { nd.data with
            decisions := schema.colNames.map identRenameDecision } }⟩ := by
  have hdata : { nd.data with decisions := ([] : List Decision) } = nd.data := by
    rw [← hds]
  have hstart : (⟨some nd⟩ : LoggingSession)
      = ⟨some { nd with data := { nd.data with
          decisions := ([] : List String).map identRenameDecision } }⟩ := by
    rw [show (([] : List String).map identRenameDecision)
        = ([] : List Decision) from rfl, hdata]
  unfold alignDataframeToSchema alignPhase1
  rw [hstart]
  rw [show (([] : List (String × String)), ([] : List Column),
      (⟨some { nd with data := { nd.data with
        decisions := ([] : List String).map identRenameDecision } }⟩ : LoggingSession))
      = (([] : List String).map (fun n => (n, n)), ([] : List Column),
        ⟨some { nd with data := { nd.data with
          decisions := ([] : List String).map identRenameDecision } }⟩) from rfl]
  rw [phase1_ident_fold env df nd schema.columns [] hmatch (by simpa using hnodup)]
  simp only [List.nil_append]
  rw [dfRename_diag]
  simp only [List.map_nil]
  rw [henum]
  rfl

/-- C9 counterexample: aligning the already-aligned dataframe `{"num": …}`
against a schema whose column `num` lists its own name as an alias DOES
record a (trivial, identity) rename decision — the claim that no rename
decisions are recorded for an already-aligned dataframe is false. -/
theorem C9_counterexample :
    alignDataframeToSchema wEnvBlank wDfNum wSchemaNum [] "" ⟨some wNode⟩
      = .ok (wDfNum, ⟨some { wNode with data := { wNode.data with
          decisions := [identRenameDecision "num"] } }⟩)
    ∧ identRenameDecision "num"
      = ⟨.columnAligned, .alignment ⟨"num", [.rename "num" "num"]⟩⟩ := by
  exact ⟨rfl, rfl⟩

theorem C9_identity_renames_only_witness :
    alignDataframeToSchema wEnvBlank wDfNum wSchemaNum [] "" ⟨some wNode⟩
      = validateSchema wSchemaNum wDfNum
          ⟨some { wNode with data := { wNode.data with
            decisions := wSchemaNum.colNames.map identRenameDecision } }⟩ :=
  C9_identity_renames_only wEnvBlank wDfNum wSchemaNum [] "" wNode
    (by decide) rfl
    (fun c hc => by
      rcases List.mem_singleton.mp hc with rfl
      exact Or.inl rfl)
    rfl

/-! ## C5: the xref normalisation path on raw identifiers -/

theorem dedupFirst_pair {α : Type} [DecidableEq α] (a b : α) (h : a ≠ b) :
    dedupFirst [a, b] = [a, b] := by
  unfold dedupFirst
  unfold dedupFirstAux
  rw [if_neg (by simp)]
  unfold dedupFirstAux
  rw [if_neg (by simp [Ne.symm h])]
  rfl

/-- C5: on the identifier (xref) path, with the input series
`["123", "456"]`, an exploded xref table containing exactly
`PFX:123`/`PFX:456` (so `PFX` is the only available prefix), an LLM that
classifies the series as identifiers and answers `PFX` for the prefix,
`normalise` prepends `PFX:`, joins on exact string equality, resolves both
rows to their entities' ids, and logs both mappings with score 1.0. -/
theorem C5_xref_resolution (llm : LlmOracle)
    (retr : String → Nat → List REntity) (algo : NormalisationAlgorithm)
    (types : List String) (id1 id2 n1 n2 sname : String)
    (log : LoggingSession)
    (hft : llm.isFreeTextAnswer ["123", "456"] = "identifiers")
    (hpfx : llm.pfxAnswer sname ["123", "456"] [some "PFX"] = "PFX") :
    EntityNormaliser.normalise
      ⟨types, [⟨id1, "PFX:123", n1⟩, ⟨id2, "PFX:456", n2⟩], retr, llm, algo⟩
      ⟨sname, [some "123", some "456"]⟩ log
    = .ok ([some id1, some id2],
        logMappings [⟨id1, n1, some "123", 1⟩, ⟨id2, n2, some "456", 1⟩]
          sname types .xref log) := by
  have hft' : isFreeText llm ⟨sname, [some "123", some "456"]⟩ = false := by
    unfold isFreeText
    simp only []
    rw [show (dedupFirst (List.filterMap id
      ([some "123", some "456"] : List (Option String)))).take 10
      = ["123", "456"] from rfl]
    rw [hft]
    rfl
  have hget : getCuriePfxIfNeeded llm ⟨sname, [some "123", some "456"]⟩
      [some "PFX"] = (some "PFX", false) := by
    unfold getCuriePfxIfNeeded
    simp only []
    rw [show (dedupFirst (List.filterMap id
      ([some "123", some "456"] : List (Option String)))).take 5
      = ["123", "456"] from rfl]
    rw [hpfx]
    rfl
  unfold EntityNormaliser.normalise
  simp only []
  rw [hft']
  rw [show (List.filterMap id
    ([some "123", some "456"] : List (Option String))).isEmpty = false from rfl]
  simp only [Bool.false_eq_true, if_false]
  rw [show availableCuriePfxs (List.map (fun x => x.xref)
      ([⟨id1, "PFX:123", n1⟩, ⟨id2, "PFX:456", n2⟩] : List XrefRow))
    = Except.ok [some "PFX"] from rfl]
  simp only [Except.bind]
  rw [hget]
  simp only []
  rw [show (List.map (fun v => (v, some ("PFX" ++ ":" ++ pyStrOfOpt v)))
      ([some "123", some "456"] : List (Option String)))
    = [(some "123", some "PFX:123"), (some "456", some "PFX:456")] from rfl]
  rw [show (if (!([some "PFX"] : List (Option String)).isEmpty) = true
      then [((some "123" : Option String), (some "PFX:123" : Option String)),
            (some "456", some "PFX:456")]
      else List.map (fun v => (v, v))
        ([some "123", some "456"] : List (Option String)))
    = [((some "123" : Option String), (some "PFX:123" : Option String)),
       (some "456", some "PFX:456")] from rfl]
  rw [show (([⟨id1, "PFX:123", n1⟩, ⟨id2, "PFX:456", n2⟩] : List XrefRow).flatMap
      (fun x => ([((some "123" : Option String), (some "PFX:123" : Option String)),
        (some "456", some "PFX:456")]).filterMap
        (fun mr => if mr.2 == some x.xref
          then some (x.id, x.name, x.xref, mr.1) else none)))
    = [(id1, n1, "PFX:123", (some "123" : Option String)),
       (id2, n2, "PFX:456", some "456")] from rfl]
  rw [dedupFirst_pair _ _ (by simp)]
  rfl

theorem C5_xref_resolution_witness :
    EntityNormaliser.normalise wNormXref wSeriesXref ⟨none⟩
      = .ok ([some "EFO:1", some "EFO:2"],
          logMappings [⟨"EFO:1", "Alpha", some "123", 1⟩,
            ⟨"EFO:2", "Beta", some "456", 1⟩]
            "trait_id" ["disease"] .xref ⟨none⟩) :=
  C5_xref_resolution wLlmXref (fun _ _ => []) .retrieval ["disease"]
    "EFO:1" "EFO:2" "Alpha" "Beta" "trait_id" ⟨none⟩ rfl rfl

theorem C3_malformed_output_fallback_witness :
    classifyMention wLlmGarbage "asthma" [⟨"Alpha", "ID:1", 1/2⟩]
      = .ok (⟨"Alpha", "ID:1", 1/2⟩, true, 1)
    ∧ getCuriePfxIfNeeded wLlmGarbage ⟨"trait_id", [some "123"]⟩
        ([some "PFX"] : List (Option String)) = (none, true)
    ∧ getColumnName wDfNCase wColNumCases wLlmGarbage = none :=
  ⟨C3_malformed_output_fallback.1 wLlmGarbage "asthma" ⟨"Alpha", "ID:1", 1/2⟩ []
      "garbage" isClose_half_one rfl (by decide),
   C3_malformed_output_fallback.2.1 wLlmGarbage ⟨"trait_id", [some "123"]⟩
      ([some "PFX"] : List (Option String)) (by decide),
   C3_malformed_output_fallback.2.2 wDfNCase wColNumCases wLlmGarbage (by decide)⟩
